import Mathlib

/-!
Verification of the `sn-itil-bsm-discovery` backend (`backend/server.py`).

The development shallowly embeds the server's request handling. Python's
`json` module is modelled at the value level: `Json` values carry integer
numbers (floats, `NaN` and `Infinity` literals are outside the model, as are
strings containing lone surrogates and underscore digit grouping in `int()`),
`json_dumps` reproduces `json.dumps(payload, indent=2)` byte for byte
(`ensure_ascii` escaping included), and `json_loads` models the strict-mode
decoder. Objects are ordered key/value lists, mirroring `dict` insertion
order as produced by the decoder; duplicate keys in a document are kept in
parse order rather than collapsed to the last occurrence.
-/

namespace SnBsm

/-! ## JSON values -/

/-- A JSON value as handled by `json.load` / `json.dumps` in `server.py`
(numbers restricted to integers; strings as character lists). -/
inductive Json where
  | null : Json
  | bool : Bool → Json
  | num : Int → Json
  | str : List Char → Json
  | arr : List Json → Json
  | obj : List (List Char × Json) → Json

mutual
/-- Structural size used as parser fuel accounting. -/
def jsize : Json → Nat
  | .null => 1
  | .bool _ => 1
  | .num _ => 1
  | .str _ => 1
  | .arr xs => 1 + asize xs
  | .obj ms => 1 + msize ms
def asize : List Json → Nat
  | [] => 1
  | x :: xs => 1 + jsize x + asize xs
def msize : List (List Char × Json) → Nat
  | [] => 1
  | (_, v) :: ms => 1 + jsize v + msize ms
end

/-! ## Decimal digits (Python `repr` of `int`, `str(len(...))`) -/

/-- The character for a decimal digit value. -/
def digitChar (d : Nat) : Char := Char.ofNat (48 + d)

def isDigitChar (c : Char) : Bool := 48 ≤ c.toNat && c.toNat ≤ 57

/-- Most-significant-first decimal digits of `n`, prepended to `acc`;
fuel-indexed so it evaluates inside the kernel. -/
def natDigitsAux : Nat → Nat → List Char → List Char
  | 0, _, acc => acc
  | fuel + 1, n, acc =>
    if n < 10 then digitChar n :: acc
    else natDigitsAux fuel (n / 10) (digitChar (n % 10) :: acc)

/-- Decimal digit characters of `n`, as Python's `str` renders a
non-negative integer. -/
def natDigits (n : Nat) : List Char := natDigitsAux (n + 1) n []

/-- Reference form of `natDigits` used by the proofs. -/
def digitsSpec (n : Nat) : List Char :=
  if n < 10 then [digitChar n] else digitsSpec (n / 10) ++ [digitChar (n % 10)]
termination_by n
decreasing_by exact Nat.div_lt_self (by omega) (by omega)

/-- Python's `repr` of an `int`: optional minus sign, then decimal digits. -/
def intChars (n : Int) : List Char :=
  if n < 0 then '-' :: natDigits n.natAbs else natDigits n.natAbs

/-! ## String escaping (`json.dumps` with the default `ensure_ascii=True`) -/

/-- Lower-case hexadecimal digit character, as CPython's `\uXXXX` escapes use. -/
def hexDigit (d : Nat) : Char :=
  if d < 10 then Char.ofNat (48 + d) else Char.ofNat (87 + d)

/-- Four hex digits of a value below `0x10000`. -/
def hex4 (v : Nat) : List Char :=
  [hexDigit (v / 4096 % 16), hexDigit (v / 256 % 16), hexDigit (v / 16 % 16), hexDigit (v % 16)]

/-- One character escaped as the `ensure_ascii` encoder emits it: printable
ASCII other than `"` and `\` passes through, the short escapes cover the
usual controls, everything else becomes `\uXXXX` (a surrogate pair beyond
the BMP). -/
def escapeChar (c : Char) : List Char :=
  if c = '"' then ['\\', '"']
  else if c = '\\' then ['\\', '\\']
  else if c = '\x08' then ['\\', 'b']
  else if c = '\x0c' then ['\\', 'f']
  else if c = '\n' then ['\\', 'n']
  else if c = '\r' then ['\\', 'r']
  else if c = '\t' then ['\\', 't']
  else if c.toNat < 32 then '\\' :: 'u' :: hex4 c.toNat
  else if c.toNat ≤ 126 then [c]
  else if c.toNat < 65536 then '\\' :: 'u' :: hex4 c.toNat
  else
    ('\\' :: 'u' :: hex4 (55296 + (c.toNat - 65536) / 1024)) ++
      ('\\' :: 'u' :: hex4 (56320 + (c.toNat - 65536) % 1024))

def escapeList : List Char → List Char
  | [] => []
  | c :: cs => escapeChar c ++ escapeList cs

/-- A string rendered with its quotes. -/
def quoteString (s : List Char) : List Char := '"' :: escapeList s ++ ['"']

/-! ## `json.dumps(payload, indent=2)` -/

/-- The indentation prefix at nesting level `lvl` (two spaces per level). -/
def pad (lvl : Nat) : List Char := List.replicate (2 * lvl) ' '

mutual
/-- Render a value at nesting level `lvl` exactly as
`json.dumps(value, indent=2)` prints it. -/
def renderJson : Nat → Json → List Char
  | _, .null => ['n', 'u', 'l', 'l']
  | _, .bool true => ['t', 'r', 'u', 'e']
  | _, .bool false => ['f', 'a', 'l', 's', 'e']
  | _, .num n => intChars n
  | _, .str s => quoteString s
  | _, .arr [] => ['[', ']']
  | lvl, .arr (x :: xs) =>
    '[' :: '\n' :: (pad (lvl + 1) ++ renderJson (lvl + 1) x ++ renderArrTail (lvl + 1) xs
      ++ '\n' :: (pad lvl ++ [']']))
  | _, .obj [] => ['\x7b', '\x7d']
  | lvl, .obj (m :: ms) =>
    '\x7b' :: '\n' :: (pad (lvl + 1) ++ renderMember (lvl + 1) m ++ renderObjTail (lvl + 1) ms
      ++ '\n' :: (pad lvl ++ ['\x7d']))
/-- One `"key": value` member. -/
def renderMember : Nat → List Char × Json → List Char
  | lvl, (k, v) => quoteString k ++ ':' :: ' ' :: renderJson lvl v
/-- `",\n<indent><item>"` for each further array element. -/
def renderArrTail : Nat → List Json → List Char
  | _, [] => []
  | lvl, x :: xs => ',' :: '\n' :: (pad lvl ++ renderJson lvl x ++ renderArrTail lvl xs)
/-- `",\n<indent><member>"` for each further object member. -/
def renderObjTail : Nat → List (List Char × Json) → List Char
  | _, [] => []
  | lvl, m :: ms => ',' :: '\n' :: (pad lvl ++ renderMember lvl m ++ renderObjTail lvl ms)
end

/-- `json.dumps(payload, indent=2)` as called by `_send_json`. -/
def json_dumps (j : Json) : List Char := renderJson 0 j

/-! ## `json.load` (strict-mode decoder) -/

def isWsChar (c : Char) : Bool := c = ' ' || c = '\t' || c = '\n' || c = '\r'

def skipWs : List Char → List Char
  | [] => []
  | c :: cs => if isWsChar c then skipWs cs else c :: cs

/-- Greedy decimal digit scan: the accumulated value and the unconsumed rest. -/
def parseDigitsAux : Nat → List Char → Nat × List Char
  | acc, [] => (acc, [])
  | acc, c :: cs =>
    if isDigitChar c then parseDigitsAux (acc * 10 + (c.toNat - 48)) cs else (acc, c :: cs)

/-- Does the input continue with a fraction or exponent part (which would make
the number a float, outside this model)? -/
def isNumCont : List Char → Bool
  | [] => false
  | c :: _ => c = '.' || c = 'e' || c = 'E'

/-- The integer part of CPython's `NUMBER_RE` (`0|[1-9]\d*`): no leading
zeros; an immediately following `.`/`e`/`E` is a float and rejected. -/
def parseUnsigned (cs : List Char) : Option (Nat × List Char) :=
  match cs with
  | [] => none
  | c :: rest =>
    if c = '0' then
      if isNumCont rest then none else some (0, rest)
    else if isDigitChar c then
      let p := parseDigitsAux 0 (c :: rest)
      if isNumCont p.2 then none else some p
    else none

/-- `-?(0|[1-9]\d*)`, restricted to the integer grammar. -/
def parseNumber (cs : List Char) : Option (Int × List Char) :=
  match cs with
  | [] => none
  | c :: rest =>
    if c = '-' then (parseUnsigned rest).map (fun p => (-(p.1 : Int), p.2))
    else (parseUnsigned (c :: rest)).map (fun p => ((p.1 : Int), p.2))

/-- Value of a hex digit character, either case, as `int(s, 16)` accepts. -/
def hexVal (c : Char) : Option Nat :=
  if 48 ≤ c.toNat && c.toNat ≤ 57 then some (c.toNat - 48)
  else if 97 ≤ c.toNat && c.toNat ≤ 102 then some (c.toNat - 87)
  else if 65 ≤ c.toNat && c.toNat ≤ 70 then some (c.toNat - 55)
  else none

def hex4Val (a b c d : Char) : Option Nat :=
  match hexVal a, hexVal b, hexVal c, hexVal d with
  | some va, some vb, some vc, some vd => some (((va * 16 + vb) * 16 + vc) * 16 + vd)
  | _, _, _, _ => none

/-- The single-character escapes of `py_scanstring`'s `BACKSLASH` table. -/
def simpleUnescape (e : Char) : Option Char :=
  if e = '"' then some '"'
  else if e = '\\' then some '\\'
  else if e = '/' then some '/'
  else if e = 'b' then some '\x08'
  else if e = 'f' then some '\x0c'
  else if e = 'n' then some '\n'
  else if e = 'r' then some '\r'
  else if e = 't' then some '\t'
  else none

/-- `py_scanstring` in strict mode, after the opening quote: raw control
characters are rejected, `\uXXXX` escapes are decoded, and a high surrogate
must be completed by a following low surrogate (lone surrogates, which
Python's `str` can hold but Lean's `Char` cannot, make the input invalid
in this model). -/
def parseStringBody : Nat → List Char → Option (List Char × List Char)
  | 0, _ => none
  | _, [] => none
  | fuel + 1, c :: rest =>
    if c = '"' then some ([], rest)
    else if c = '\\' then
      match rest with
      | [] => none
      | e :: rest2 =>
        if e = 'u' then
          match rest2 with
          | h1 :: h2 :: h3 :: h4 :: rest3 =>
            match hex4Val h1 h2 h3 h4 with
            | none => none
            | some v =>
              if v < 55296 then
                (parseStringBody fuel rest3).map (fun p => (Char.ofNat v :: p.1, p.2))
              else if 57343 < v then
                (parseStringBody fuel rest3).map (fun p => (Char.ofNat v :: p.1, p.2))
              else if v ≤ 56319 then
                match rest3 with
                | '\\' :: 'u' :: g1 :: g2 :: g3 :: g4 :: rest4 =>
                  match hex4Val g1 g2 g3 g4 with
                  | none => none
                  | some w =>
                    if 56320 ≤ w ∧ w ≤ 57343 then
                      (parseStringBody fuel rest4).map
                        (fun p => (Char.ofNat (65536 + (v - 55296) * 1024 + (w - 56320)) :: p.1, p.2))
                    else none
                | _ => none
              else none
          | _ => none
        else
          match simpleUnescape e with
          | none => none
          | some d => (parseStringBody fuel rest2).map (fun p => (d :: p.1, p.2))
    else if c.toNat < 32 then none
    else (parseStringBody fuel rest).map (fun p => (c :: p.1, p.2))

mutual
/-- One JSON value at the head of the input (`_scan_once`); whitespace around
values is handled by the callers, as in CPython's decoder. -/
def parseValue : Nat → List Char → Option (Json × List Char)
  | 0, _ => none
  | fuel + 1, cs =>
    match cs with
    | [] => none
    | c :: rest =>
      if c = 'n' then
        match rest with
        | 'u' :: 'l' :: 'l' :: r => some (.null, r)
        | _ => none
      else if c = 't' then
        match rest with
        | 'r' :: 'u' :: 'e' :: r => some (.bool true, r)
        | _ => none
      else if c = 'f' then
        match rest with
        | 'a' :: 'l' :: 's' :: 'e' :: r => some (.bool false, r)
        | _ => none
      else if c = '"' then (parseStringBody (rest.length + 1) rest).map (fun p => (.str p.1, p.2))
      else if c = '[' then
        match skipWs rest with
        | ']' :: r => some (.arr [], r)
        | cs2 => (parseElems fuel cs2).map (fun p => (.arr p.1, p.2))
      else if c = '\x7b' then
        match skipWs rest with
        | '\x7d' :: r => some (.obj [], r)
        | cs2 => (parseMembers fuel cs2).map (fun p => (.obj p.1, p.2))
      else (parseNumber (c :: rest)).map (fun p => (.num p.1, p.2))
/-- The comma-separated elements of a non-empty array (`JSONArray`). -/
def parseElems : Nat → List Char → Option (List Json × List Char)
  | 0, _ => none
  | fuel + 1, cs =>
    match parseValue fuel cs with
    | none => none
    | some (v, r) =>
      match skipWs r with
      | ',' :: r2 => (parseElems fuel (skipWs r2)).map (fun p => (v :: p.1, p.2))
      | ']' :: r2 => some ([v], r2)
      | _ => none
/-- The comma-separated members of a non-empty object (`JSONObject`). -/
def parseMembers : Nat → List Char → Option (List (List Char × Json) × List Char)
  | 0, _ => none
  | fuel + 1, cs =>
    match cs with
    | '"' :: r =>
      match parseStringBody (r.length + 1) r with
      | none => none
      | some (k, r1) =>
        match skipWs r1 with
        | ':' :: r2 =>
          match parseValue fuel (skipWs r2) with
          | none => none
          | some (v, r3) =>
            match skipWs r3 with
            | ',' :: r4 => (parseMembers fuel (skipWs r4)).map (fun p => ((k, v) :: p.1, p.2))
            | '\x7d' :: r4 => some ([(k, v)], r4)
            | _ => none
        | _ => none
    | _ => none
end

/-- `json.load`: skip surrounding whitespace, decode one document, and
reject trailing data. -/
def json_loads (cs : List Char) : Option Json :=
  match parseValue (cs.length + 1) (skipWs cs) with
  | none => none
  | some (j, r) => if skipWs r = [] then some j else none

/-! ## `urllib.parse.urlparse(self.path).path`

`do_GET` dispatches on `urlparse(self.path).path`. `urlparse` strips, in
order: a scheme, a `//`-prefixed netloc, the fragment after the first `#`,
the query after the first `?`, and finally the `;parameters` of the last
path segment (bracket validation of the netloc is not modelled). -/

def isSchemeChar (c : Char) : Bool := c.isAlpha || c.isDigit || c = '+' || c = '-' || c = '.'

/-- Scheme removal: a `:` preceded only by scheme characters starting with
an ASCII letter splits the scheme off. -/
def splitScheme (cs : List Char) : List Char :=
  match cs.findIdx? (fun c => c = ':') with
  | none => cs
  | some i =>
    if 0 < i && (cs.take i).all isSchemeChar &&
        (match cs.head? with | some c => c.isAlpha | none => false) then
      cs.drop (i + 1)
    else cs

/-- Netloc removal: after `//`, everything up to the next `/`, `?` or `#`. -/
def splitNetloc (cs : List Char) : List Char :=
  match cs with
  | '/' :: '/' :: rest => rest.dropWhile (fun c => !(c = '/' || c = '?' || c = '#'))
  | _ => cs

def dropFragment (cs : List Char) : List Char := cs.takeWhile (fun c => c ≠ '#')

def dropQuery (cs : List Char) : List Char := cs.takeWhile (fun c => c ≠ '?')

/-- `_splitparams`: drop everything from the first `;` of the last
`/`-separated segment. -/
def splitParams (cs : List Char) : List Char :=
  let lastSeg := (cs.reverse.takeWhile (fun c => c ≠ '/')).reverse
  cs.take (cs.length - lastSeg.length) ++ lastSeg.takeWhile (fun c => c ≠ ';')

/-- The `.path` component of `urlparse` on a request target. -/
def urlparse_path (s : String) : String :=
  ⟨splitParams (dropQuery (dropFragment (splitNetloc (splitScheme s.data))))⟩

/-- The dispatch key exactly as the specification's words describe it: `the
request path with the query string stripped` (and nothing else removed).
Used only to compare that wording with the `urlparse`-based dispatch. -/
def stripQueryOnly (s : String) : String := ⟨s.data.takeWhile (fun c => c ≠ '?')⟩

/-! ## The request handler (`BackendHandler`) -/

/-- Filesystem operations the handler can perform; paths are absolute,
represented as segment lists. -/
inductive FsOp where
  | probe (p : List String)
  | read (p : List String)
  | write (p : List String)

/-- A JSON response as `_send_json` assembles it (`send_response(status)`
additionally emits `Server`/`Date` headers, which are time-dependent and
not modelled). -/
structure HttpResponse where
  status : Nat
  headers : List (String × List Char)
  body : List Char

/-- UTF-8 byte length, `len(json.dumps(...).encode('utf-8'))`. -/
def utf8Len (cs : List Char) : Nat := (cs.map Char.utf8Size).sum

/-- `BackendHandler._send_json`. -/
def send_json (status : Nat) (payload : Json) : HttpResponse :=
  let body := json_dumps payload
  { status := status
    headers := [("Content-Type", "application/json; charset=utf-8".data),
                ("Cache-Control", "no-cache".data),
                ("Access-Control-Allow-Origin", "*".data),
                ("Content-Length", natDigits (utf8Len body))]
    body := body }

/-- `ROOT_DIR / 'data' / 'sample-graph.json'` (`ROOT_DIR` is the resolved
grandparent of `backend/server.py`, passed in as `rootDir`). -/
def SAMPLE_GRAPH_PATH (rootDir : List String) : List String :=
  rootDir ++ ["data", "sample-graph.json"]

/-- `str()` of a POSIX path: segments joined by `/`. -/
def pathChars : List String → List Char
  | [] => []
  | [s] => s.data
  | s :: rest => s.data ++ '/' :: pathChars rest

/-- The `/api/health` payload literal of `do_GET`. -/
def healthJson : Json :=
  .obj [("status".data, .str "ok".data),
        ("service".data, .str "sn-itil-bsm-discovery-backend".data),
        ("message".data, .str "alive".data)]

/-- The 404 payload literal for a missing sample graph. -/
def missingJson (rootDir : List String) : Json :=
  .obj [("error".data, .str "sample graph missing".data),
        ("path".data, .str (pathChars (SAMPLE_GRAPH_PATH rootDir)))]

/-- How one request ends inside the handler: an assembled JSON response,
delegation to the base class's static file serving, or a Python exception
escaping `do_GET`. -/
inductive Outcome where
  | response (r : HttpResponse)
  | staticFile (cwd : List String) (path : String)
  | exception

/-- Modelled from the spec: static file serving (delegated to
`SimpleHTTPRequestHandler`, outside `src/`) resolves the request path under
the process working directory — the static root after `os.chdir` — and only
reads (`standard static file semantics`, `No writes`). -/
def staticOps (cwd : List String) (p : String) : List FsOp := [.read (cwd ++ [p])]

/-- The `/api/health` branch of `do_GET`. -/
def healthBranch : Outcome × List FsOp :=
  (.response (send_json 200 healthJson), [])

/-- The `/api/sample-graph` branch of `do_GET`: existence probe, then open,
read and `json.load` (whose failure on malformed content escapes as an
exception), then `_send_json(OK, payload)`. -/
def sampleGraphBranch (rootDir : List String) (fs : List String → Option (List Char)) :
    Outcome × List FsOp :=
  let sg := SAMPLE_GRAPH_PATH rootDir
  match fs sg with
  | none => (.response (send_json 404 (missingJson rootDir)), [.probe sg])
  | some content =>
    match json_loads content with
    | none => (.exception, [.probe sg, .read sg])
    | some payload => (.response (send_json 200 payload), [.probe sg, .read sg])

/-- The static fallback (`super().do_GET()`). -/
def staticBranch (cwd : List String) (p : String) : Outcome × List FsOp :=
  (.staticFile cwd p, staticOps cwd p)

/-- `BackendHandler.do_GET`: dispatch on `urlparse(self.path).path` with the
two literal comparisons, falling through to static file serving. `fs` maps
an absolute path to the content of the file there, if any. -/
def do_GET (rootDir : List String) (fs : List String → Option (List Char))
    (cwd : List String) (req : String) : Outcome × List FsOp :=
  let p := urlparse_path req
  if p = "/api/health" then healthBranch
  else if p = "/api/sample-graph" then sampleGraphBranch rootDir fs
  else staticBranch cwd p

/-- Modelled from the spec: the HTTP framework wrapping the handler (outside
`src/`) surfaces an unhandled exception from `do_GET` as an internal server
error for that request (`surfaced as a 500`); a static response's status
comes from the base handler and is not modelled here. -/
def observedStatus : Outcome → Option Nat
  | .response r => some r.status
  | .staticFile _ _ => none
  | .exception => some 500

/-- Modelled from the spec: `each request is handled independently and
synchronously; no cross-request state`, and a failing request is `isolated
to that request — does not crash the server process`, so a run over a
request list observes each request's own status. -/
def serverRun (rootDir : List String) (fs : List String → Option (List Char))
    (cwd : List String) (reqs : List String) : List (Option Nat) :=
  reqs.map (fun r => observedStatus (do_GET rootDir fs cwd r).1)

/-- Association-list lookup inside a decoded object. -/
def jlookup : List (List Char × Json) → List Char → Option Json
  | [], _ => none
  | (k, v) :: rest, key => if k = key then some v else jlookup rest key

/-! ## The route-table reading of the dispatch (spec §9 design note) -/

/-- Abstract dispatch targets for the route-table formulation. -/
inductive RouteTarget where
  | health
  | sampleGraph
  | staticServe

/-- The ordered exact-match route table the spec's design note describes. -/
def routeTable : List (String × RouteTarget) :=
  [("/api/health", .health), ("/api/sample-graph", .sampleGraph)]

/-- First exact match wins; the wildcard entry is static serving. -/
def tableLookup : List (String × RouteTarget) → String → RouteTarget
  | [], _ => .staticServe
  | (k, t) :: rest, p => if p = k then t else tableLookup rest p

/-- Run the handler a route target names. -/
def runRoute (rootDir : List String) (fs : List String → Option (List Char))
    (cwd : List String) (p : String) : RouteTarget → Outcome × List FsOp
  | .health => healthBranch
  | .sampleGraph => sampleGraphBranch rootDir fs
  | .staticServe => staticBranch cwd p

/-! ## `parse_args` and `main` -/

/-- The whitespace `int()` strips around its argument. -/
def pyWsChar (c : Char) : Bool :=
  c = ' ' || c = '\t' || c = '\n' || c = '\r' || c = '\x0b' || c = '\x0c'

/-- Model of Python `int()` on a string: surrounding whitespace, an optional
sign, then decimal digits (underscore grouping and non-ASCII digits are not
modelled). -/
def pyInt (s : String) : Option Int :=
  let t := ((s.data.dropWhile pyWsChar).reverse.dropWhile pyWsChar).reverse
  match t with
  | [] => none
  | c :: rest =>
    let neg := c = '-'
    let ds := if c = '-' || c = '+' then rest else c :: rest
    if ds.isEmpty || !ds.all isDigitChar then none
    else
      let v := (parseDigitsAux 0 ds).1
      some (if neg then -(v : Int) else (v : Int))

/-- The parsed flags of `parse_args`. -/
structure Args where
  host : String
  port : Int
  root : String

/-- How startup can fail before the static-root check. -/
inductive StartupError where
  /-- An uncaught `ValueError` from `int()` while the parser is being built. -/
  | valueError
  /-- `argparse` rejecting a command-line value (it raises `SystemExit`). -/
  | argError

/-- The argv scan once the parser exists; only the `--flag value` spelling
of the three declared flags is modelled. `--port` goes through `type=int`. -/
def parseArgv (a : Args) : List String → Except StartupError Args
  | [] => .ok a
  | "--host" :: v :: rest => parseArgv { a with host := v } rest
  | "--port" :: v :: rest =>
    match pyInt v with
    | some n => parseArgv { a with port := n } rest
    | none => .error .argError
  | "--root" :: v :: rest => parseArgv { a with root := v } rest
  | _ => .error .argError

/-- `parse_args`: the `--port` default expression
`int(os.environ.get('PORT', 3000))` is evaluated while the argument is
being declared — before argv is even looked at — so a non-integer `PORT`
raises `ValueError` regardless of the command line. The `--root` default is
`os.environ.get('BACKEND_ROOT', 'dist')`. -/
def parse_args (env : String → Option String) (argv : List String) : Except StartupError Args :=
  match (match env "PORT" with | none => some (3000 : Int) | some s => pyInt s) with
  | none => .error .valueError
  | some portDefault =>
    parseArgv { host := "127.0.0.1", port := portDefault, root := (env "BACKEND_ROOT").getD "dist" }
      argv

/-- The parts of the world `main` consults: directory existence/kind for the
static root, and whether `serve_forever` ended via `KeyboardInterrupt` or an
external `shutdown()`. -/
structure World where
  dirExists : List String → Bool
  dirIsDir : List String → Bool
  interrupted : Bool

/-- What a completed `main` did: its return value (the process exit code via
`SystemExit`), the lines printed, whether `HTTPServer` was ever constructed
(binding the socket), and the working directory after `os.chdir`. -/
structure MainResult where
  exitCode : Nat
  stderrLines : List String
  stdoutLines : List String
  boundSocket : Bool
  cwdAfter : Option (List String)

/-- `main` after argument parsing: resolve `ROOT_DIR / args.root`, bail out
with code 1 before any socket exists when it is absent or not a directory,
otherwise chdir, bind, serve until interrupted and return 0. -/
def mainModel (rootDir : List String) (args : Args) (w : World) : MainResult :=
  let root_dir := rootDir ++ [args.root]
  if w.dirExists root_dir && w.dirIsDir root_dir then
    { exitCode := 0
      stderrLines := []
      stdoutLines :=
        ["Backend serving on http://" ++ args.host ++ ":" ++ String.mk (intChars args.port),
         "Static root: " ++ String.mk (pathChars root_dir),
         "API endpoints:",
         "  - GET /api/health",
         "  - GET /api/sample-graph",
         "Shutting down"]
      boundSocket := true
      cwdAfter := some root_dir }
  else
    { exitCode := 1
      stderrLines := ["Error: static root not found: " ++ String.mk (pathChars root_dir)]
      stdoutLines := []
      boundSocket := false
      cwdAfter := none }

/-- `main` including `parse_args`: an exception raised there crashes startup
before the static-root check runs. -/
inductive MainOutcome where
  | crashed (e : StartupError)
  | finished (r : MainResult)

def mainFull (rootDir : List String) (env : String → Option String) (argv : List String)
    (w : World) : MainOutcome :=
  match parse_args env argv with
  | .error e => .crashed e
  | .ok a => .finished (mainModel rootDir a w)

/-! ## Side conditions used by the round-trip proofs -/

/-- A remainder that cannot extend a rendered number: empty, or headed by
something that is neither a digit nor `.`/`e`/`E`. Every position following
a value inside rendered output (a `,` or a newline, or the end) qualifies. -/
def numBoundary : List Char → Bool
  | [] => true
  | c :: _ => !isDigitChar c && !(c = '.') && !(c = 'e') && !(c = 'E')

/-- Entirely JSON whitespace (the indentation `pad` always is). -/
def wsOnly (cs : List Char) : Bool := cs.all isWsChar

/-! # Theorems

## Decimal digit lemmas -/

theorem digitChar_toNat (d : Nat) (h : d < 10) : (digitChar d).toNat = 48 + d := by
  interval_cases d <;> decide

theorem isDigitChar_digitChar (d : Nat) (h : d < 10) : isDigitChar (digitChar d) = true := by
  interval_cases d <;> decide

theorem digitsSpec_lt (n : Nat) (h : n < 10) : digitsSpec n = [digitChar n] := by
  rw [digitsSpec]; simp [h]

theorem digitsSpec_ge (n : Nat) (h : ¬ n < 10) :
    digitsSpec n = digitsSpec (n / 10) ++ [digitChar (n % 10)] := by
  rw [digitsSpec]; simp [h]

theorem natDigitsAux_succ (f n : Nat) (acc : List Char) :
    natDigitsAux (f + 1) n acc =
      if n < 10 then digitChar n :: acc
      else natDigitsAux f (n / 10) (digitChar (n % 10) :: acc) := rfl

theorem natDigitsAux_eq_spec :
    ∀ f n acc, n < 10 ^ (f + 1) → natDigitsAux (f + 1) n acc = digitsSpec n ++ acc := by
  intro f
  induction f with
  | zero =>
    intro n acc h
    simp only [Nat.zero_add, pow_one] at h
    rw [natDigitsAux_succ, if_pos h, digitsSpec_lt n h]
    simp
  | succ f ih =>
    intro n acc h
    by_cases h10 : n < 10
    · rw [natDigitsAux_succ, if_pos h10, digitsSpec_lt n h10]
      simp
    · have hdiv : n / 10 < 10 ^ (f + 1) := by
        rw [Nat.div_lt_iff_lt_mul (by omega)]
        calc n < 10 ^ (f + 1 + 1) := h
        _ = 10 ^ (f + 1) * 10 := by ring
      rw [natDigitsAux_succ, if_neg h10,
        ih (n / 10) (digitChar (n % 10) :: acc) hdiv, digitsSpec_ge n h10]
      simp

theorem natDigits_eq_spec (n : Nat) : natDigits n = digitsSpec n := by
  have hlt : n < 10 ^ (n + 1) :=
    lt_of_lt_of_le (Nat.lt_pow_self (by omega) n) (Nat.pow_le_pow_right (by omega) (by omega))
  have := natDigitsAux_eq_spec n n [] hlt
  simpa [natDigits] using this

theorem digitsSpec_all (n : Nat) : ∀ c ∈ digitsSpec n, isDigitChar c = true := by
  induction n using Nat.strong_induction_on with
  | _ n ih =>
    by_cases h : n < 10
    · rw [digitsSpec_lt n h]
      intro c hc
      rw [List.mem_singleton] at hc
      exact hc ▸ isDigitChar_digitChar n h
    · rw [digitsSpec_ge n h]
      intro c hc
      rcases List.mem_append.mp hc with hl | hr
      · exact ih (n / 10) (Nat.div_lt_self (by omega) (by omega)) c hl
      · rw [List.mem_singleton] at hr
        exact hr ▸ isDigitChar_digitChar (n % 10) (Nat.mod_lt n (by omega))

theorem digitsSpec_head (n : Nat) :
    ∃ c t, digitsSpec n = c :: t ∧ isDigitChar c = true := by
  by_cases h : n < 10
  · exact ⟨digitChar n, [], digitsSpec_lt n h, isDigitChar_digitChar n h⟩
  · rw [digitsSpec_ge n h]
    obtain ⟨c, t, hspec, hc⟩ :
        ∃ c t, digitsSpec (n / 10) = c :: t ∧ isDigitChar c = true := by
      have hne : digitsSpec (n / 10) ≠ [] := by
        by_cases h2 : n / 10 < 10
        · rw [digitsSpec_lt _ h2]; simp
        · rw [digitsSpec_ge _ h2]; simp
      match hd : digitsSpec (n / 10) with
      | [] => exact absurd hd hne
      | c :: t => exact ⟨c, t, rfl, digitsSpec_all (n / 10) c (hd ▸ List.mem_cons_self ..)⟩
    exact ⟨c, t ++ [digitChar (n % 10)], by rw [hspec]; simp, hc⟩

theorem digitsSpec_pos_head (n : Nat) (hn : 1 ≤ n) :
    ∃ c t, digitsSpec n = c :: t ∧ isDigitChar c = true ∧ c ≠ '0' := by
  induction n using Nat.strong_induction_on with
  | _ n ih =>
    by_cases h : n < 10
    · refine ⟨digitChar n, [], digitsSpec_lt n h, isDigitChar_digitChar n h, ?_⟩
      interval_cases n <;> simp_all <;> decide
    · rw [digitsSpec_ge n h]
      obtain ⟨c, t, hspec, hc, hc0⟩ :=
        ih (n / 10) (Nat.div_lt_self (by omega) (by omega)) (by omega)
      exact ⟨c, t ++ [digitChar (n % 10)], by rw [hspec]; simp, hc, hc0⟩

theorem parseDigitsAux_digit (acc d : Nat) (rest : List Char) (h : d < 10) :
    parseDigitsAux acc (digitChar d :: rest) = parseDigitsAux (acc * 10 + d) rest := by
  simp [parseDigitsAux, isDigitChar_digitChar d h, digitChar_toNat d h]

theorem parseDigitsAux_spec (n : Nat) : ∀ acc rest,
    parseDigitsAux acc (digitsSpec n ++ rest) =
      parseDigitsAux (acc * 10 ^ (digitsSpec n).length + n) rest := by
  induction n using Nat.strong_induction_on with
  | _ n ih =>
    intro acc rest
    by_cases h : n < 10
    · rw [digitsSpec_lt n h]
      simpa using parseDigitsAux_digit acc n rest h
    · rw [digitsSpec_ge n h, List.append_assoc, List.cons_append, List.nil_append,
        ih (n / 10) (Nat.div_lt_self (by omega) (by omega)),
        parseDigitsAux_digit _ (n % 10) rest (Nat.mod_lt n (by omega))]
      congr 1
      have hlen : (digitsSpec (n / 10) ++ [digitChar (n % 10)]).length =
          (digitsSpec (n / 10)).length + 1 := by simp
      rw [hlen, pow_succ]
      have hmod : n / 10 * 10 + n % 10 = n := by omega
      calc (acc * 10 ^ (digitsSpec (n / 10)).length + n / 10) * 10 + n % 10
          = acc * (10 ^ (digitsSpec (n / 10)).length * 10) + (n / 10 * 10 + n % 10) := by ring
        _ = acc * (10 ^ (digitsSpec (n / 10)).length * 10) + n := by rw [hmod]

theorem numBoundary_not_digit {c : Char} {t : List Char} (h : numBoundary (c :: t) = true) :
    isDigitChar c = false ∧ c ≠ '.' ∧ c ≠ 'e' ∧ c ≠ 'E' := by
  simp only [numBoundary, Bool.and_eq_true, Bool.not_eq_true', decide_eq_false_iff_not] at h
  exact ⟨h.1.1.1, h.1.1.2, h.1.2, h.2⟩

theorem parseDigitsAux_stop (v : Nat) (rest : List Char) (h : numBoundary rest = true) :
    parseDigitsAux v rest = (v, rest) := by
  match rest with
  | [] => rfl
  | c :: t =>
    have := (numBoundary_not_digit h).1
    simp [parseDigitsAux, this]

theorem parseDigitsAux_spec_val (n : Nat) (rest : List Char) (h : numBoundary rest = true) :
    parseDigitsAux 0 (digitsSpec n ++ rest) = (n, rest) := by
  rw [parseDigitsAux_spec n 0 rest]
  simpa using parseDigitsAux_stop n rest h

theorem numBoundary_isNumCont (rest : List Char) (h : numBoundary rest = true) :
    isNumCont rest = false := by
  match rest with
  | [] => rfl
  | c :: t =>
    obtain ⟨_, hd, he, hE⟩ := numBoundary_not_digit h
    simp [isNumCont, hd, he, hE]

theorem parseUnsigned_spec (n : Nat) (rest : List Char) (h : numBoundary rest = true) :
    parseUnsigned (digitsSpec n ++ rest) = some (n, rest) := by
  by_cases hn : n = 0
  · subst hn
    rw [digitsSpec_lt 0 (by omega)]
    have h0 : digitChar 0 = '0' := by decide
    simp [h0, parseUnsigned, numBoundary_isNumCont rest h]
  · obtain ⟨c, t, hspec, hc, hc0⟩ := digitsSpec_pos_head n (by omega)
    rw [hspec, List.cons_append]
    have hval : parseDigitsAux 0 (c :: (t ++ rest)) = (n, rest) := by
      have := parseDigitsAux_spec_val n rest h
      rwa [hspec, List.cons_append] at this
    simp only [parseUnsigned, if_neg hc0, hc, if_pos rfl, hval]
    simp [numBoundary_isNumCont rest h]

theorem isDigitChar_ne_minus {c : Char} (h : isDigitChar c = true) : c ≠ '-' := by
  intro e; subst e; exact absurd h (by decide)

theorem parseNumber_intChars (n : Int) (rest : List Char) (h : numBoundary rest = true) :
    parseNumber (intChars n ++ rest) = some (n, rest) := by
  by_cases hneg : n < 0
  · have harg : intChars n ++ rest = '-' :: (natDigits n.natAbs ++ rest) := by
      simp [intChars, hneg]
    rw [harg]
    simp only [parseNumber, if_pos rfl]
    rw [natDigits_eq_spec, parseUnsigned_spec n.natAbs rest h]
    have hn : -((n.natAbs : Nat) : Int) = n := by omega
    show some (-((n.natAbs : Nat) : Int), rest) = some (n, rest)
    rw [hn]
  · obtain ⟨c, t, hspec, hc⟩ := digitsSpec_head n.natAbs
    have harg : intChars n ++ rest = c :: (t ++ rest) := by
      simp [intChars, hneg, natDigits_eq_spec, hspec]
    rw [harg]
    simp only [parseNumber, if_neg (isDigitChar_ne_minus hc)]
    have hu : parseUnsigned (c :: (t ++ rest)) = some (n.natAbs, rest) := by
      have := parseUnsigned_spec n.natAbs rest h
      rwa [hspec, List.cons_append] at this
    rw [hu]
    have hn : ((n.natAbs : Nat) : Int) = n := by omega
    show some (((n.natAbs : Nat) : Int), rest) = some (n, rest)
    rw [hn]

/-! ## Hex and string escape lemmas -/

theorem hexVal_hexDigit (d : Nat) (h : d < 16) : hexVal (hexDigit d) = some d := by
  interval_cases d <;> decide

theorem hex4Val_hex4 (v : Nat) (h : v < 65536) :
    hex4Val (hexDigit (v / 4096 % 16)) (hexDigit (v / 256 % 16)) (hexDigit (v / 16 % 16))
      (hexDigit (v % 16)) = some v := by
  simp only [hex4Val, hexVal_hexDigit (v / 4096 % 16) (by omega),
    hexVal_hexDigit (v / 256 % 16) (by omega), hexVal_hexDigit (v / 16 % 16) (by omega),
    hexVal_hexDigit (v % 16) (by omega)]
  exact congrArg some (by omega)

theorem char_toNat_lt (c : Char) : c.toNat < 1114112 := by
  have h := c.valid
  rcases h with h | ⟨h1, h2⟩ <;> simp [Char.toNat] <;> omega

theorem char_toNat_not_surrogate (c : Char) : c.toNat < 55296 ∨ 57343 < c.toNat := by
  have h := c.valid
  rcases h with h | ⟨h1, h2⟩ <;> [left; right] <;> simp [Char.toNat] <;> omega

theorem psb_quote (fuel : Nat) (rest : List Char) :
    parseStringBody (fuel + 1) ('"' :: rest) = some ([], rest) := rfl

theorem psb_lit {c : Char} (fuel : Nat) (rest : List Char) (h1 : ¬c = '"') (h2 : ¬c = '\\')
    (h3 : ¬c.toNat < 32) :
    parseStringBody (fuel + 1) (c :: rest) =
      (parseStringBody fuel rest).map (fun p => (c :: p.1, p.2)) := by
  rw [parseStringBody.eq_def]
  simp only [if_neg h1, if_neg h2, if_neg h3]

theorem psb_u (fuel : Nat) (h1 h2 h3 h4 : Char) (rest3 : List Char) :
    parseStringBody (fuel + 1) ('\\' :: 'u' :: h1 :: h2 :: h3 :: h4 :: rest3) =
      match hex4Val h1 h2 h3 h4 with
      | none => none
      | some v =>
        if v < 55296 then (parseStringBody fuel rest3).map (fun p => (Char.ofNat v :: p.1, p.2))
        else if 57343 < v then
          (parseStringBody fuel rest3).map (fun p => (Char.ofNat v :: p.1, p.2))
        else if v ≤ 56319 then
          match rest3 with
          | '\\' :: 'u' :: g1 :: g2 :: g3 :: g4 :: rest4 =>
            match hex4Val g1 g2 g3 g4 with
            | none => none
            | some w =>
              if 56320 ≤ w ∧ w ≤ 57343 then
                (parseStringBody fuel rest4).map
                  (fun p => (Char.ofNat (65536 + (v - 55296) * 1024 + (w - 56320)) :: p.1, p.2))
              else none
          | _ => none
        else none := rfl

theorem parseStringBody_escapeChar (fuel : Nat) (c : Char) (rest : List Char) :
    parseStringBody (fuel + 1) (escapeChar c ++ rest) =
      (parseStringBody fuel rest).map (fun p => (c :: p.1, p.2)) := by
  by_cases h1 : c = '"'
  · subst h1; rfl
  by_cases h2 : c = '\\'
  · subst h2; rfl
  by_cases h3 : c = '\x08'
  · subst h3; rfl
  by_cases h4 : c = '\x0c'
  · subst h4; rfl
  by_cases h5 : c = '\n'
  · subst h5; rfl
  by_cases h6 : c = '\r'
  · subst h6; rfl
  by_cases h7 : c = '\t'
  · subst h7; rfl
  by_cases h8 : c.toNat < 32
  · have hesc : escapeChar c ++ rest =
        '\\' :: 'u' :: hexDigit (c.toNat / 4096 % 16) :: hexDigit (c.toNat / 256 % 16) ::
          hexDigit (c.toNat / 16 % 16) :: hexDigit (c.toNat % 16) :: rest := by
      simp [escapeChar, h1, h2, h3, h4, h5, h6, h7, h8, hex4]
    rw [hesc, psb_u, hex4Val_hex4 c.toNat (by omega)]
    simp only [if_pos (by omega : c.toNat < 55296), Char.ofNat_toNat]
  by_cases h9 : c.toNat ≤ 126
  · have hesc : escapeChar c ++ rest = c :: rest := by
      simp [escapeChar, h1, h2, h3, h4, h5, h6, h7, h8, h9]
    rw [hesc, psb_lit fuel rest h1 h2 h8]
  by_cases h10 : c.toNat < 65536
  · have hesc : escapeChar c ++ rest =
        '\\' :: 'u' :: hexDigit (c.toNat / 4096 % 16) :: hexDigit (c.toNat / 256 % 16) ::
          hexDigit (c.toNat / 16 % 16) :: hexDigit (c.toNat % 16) :: rest := by
      simp [escapeChar, h1, h2, h3, h4, h5, h6, h7, h8, h9, h10, hex4]
    rw [hesc, psb_u, hex4Val_hex4 c.toNat (by omega)]
    rcases char_toNat_not_surrogate c with hs | hs
    · simp only [if_pos hs, Char.ofNat_toNat]
    · simp only [if_neg (by omega : ¬c.toNat < 55296), if_pos hs, Char.ofNat_toNat]
  · have hlt := char_toNat_lt c
    have hesc : escapeChar c ++ rest =
        '\\' :: 'u' :: hexDigit ((55296 + (c.toNat - 65536) / 1024) / 4096 % 16) ::
          hexDigit ((55296 + (c.toNat - 65536) / 1024) / 256 % 16) ::
          hexDigit ((55296 + (c.toNat - 65536) / 1024) / 16 % 16) ::
          hexDigit ((55296 + (c.toNat - 65536) / 1024) % 16) ::
          ('\\' :: 'u' :: hexDigit ((56320 + (c.toNat - 65536) % 1024) / 4096 % 16) ::
            hexDigit ((56320 + (c.toNat - 65536) % 1024) / 256 % 16) ::
            hexDigit ((56320 + (c.toNat - 65536) % 1024) / 16 % 16) ::
            hexDigit ((56320 + (c.toNat - 65536) % 1024) % 16) :: rest) := by
      simp [escapeChar, h1, h2, h3, h4, h5, h6, h7, h8, h9, h10, hex4]
    rw [hesc, psb_u, hex4Val_hex4 (55296 + (c.toNat - 65536) / 1024) (by omega)]
    simp only [if_neg (by omega : ¬55296 + (c.toNat - 65536) / 1024 < 55296),
      if_neg (by omega : ¬57343 < 55296 + (c.toNat - 65536) / 1024),
      if_pos (by omega : 55296 + (c.toNat - 65536) / 1024 ≤ 56319),
      hex4Val_hex4 (56320 + (c.toNat - 65536) % 1024) (by omega),
      if_pos (by omega : 56320 ≤ 56320 + (c.toNat - 65536) % 1024 ∧
        56320 + (c.toNat - 65536) % 1024 ≤ 57343)]
    have hcomb : 65536 + (55296 + (c.toNat - 65536) / 1024 - 55296) * 1024 +
        (56320 + (c.toNat - 65536) % 1024 - 56320) = c.toNat := by omega
    rw [hcomb, Char.ofNat_toNat]

theorem parseStringBody_escapeList (s : List Char) : ∀ fuel rest, s.length < fuel →
    parseStringBody fuel (escapeList s ++ '"' :: rest) = some (s, rest) := by
  induction s with
  | nil =>
    intro fuel rest hf
    match fuel, hf with
    | f + 1, _ => rw [escapeList, List.nil_append, psb_quote]
  | cons c s ih =>
    intro fuel rest hf
    match fuel, hf with
    | f + 1, hf =>
      rw [escapeList, List.append_assoc, parseStringBody_escapeChar,
        ih f rest (by simpa using Nat.lt_of_succ_lt_succ hf)]
      rfl

/-! ## Rendered output: head shapes and whitespace facts -/

theorem isDigitChar_bounds {c : Char} (h : isDigitChar c = true) :
    48 ≤ c.toNat ∧ c.toNat ≤ 57 := by
  simpa [isDigitChar, Bool.and_eq_true, decide_eq_true_eq] using h

theorem isDigitChar_ne {c : Char} (h : isDigitChar c = true) :
    c ≠ 'n' ∧ c ≠ 't' ∧ c ≠ 'f' ∧ c ≠ '"' ∧ c ≠ '[' ∧ c ≠ '\x7b' ∧
      isWsChar c = false ∧ c ≠ ']' ∧ c ≠ '\x7d' := by
  obtain ⟨hl, hr⟩ := isDigitChar_bounds h
  have hne : ∀ d : Char, d.toNat < 48 ∨ 57 < d.toNat → c ≠ d := by
    intro d hd e
    subst e
    omega
  refine ⟨hne 'n' (by decide), hne 't' (by decide), hne 'f' (by decide), hne '"' (by decide),
    hne '[' (by decide), hne '\x7b' (by decide), ?_, hne ']' (by decide), hne '\x7d' (by decide)⟩
  have h1 : c ≠ ' ' := hne ' ' (by decide)
  have h2 : c ≠ '\t' := hne '\t' (by decide)
  have h3 : c ≠ '\n' := hne '\n' (by decide)
  have h4 : c ≠ '\r' := hne '\r' (by decide)
  simp [isWsChar, h1, h2, h3, h4]

theorem intChars_head (n : Int) :
    ∃ c t, intChars n = c :: t ∧ (c = '-' ∨ isDigitChar c = true) := by
  by_cases hneg : n < 0
  · exact ⟨'-', natDigits n.natAbs, by simp [intChars, hneg], Or.inl rfl⟩
  · obtain ⟨c, t, hspec, hc⟩ := digitsSpec_head n.natAbs
    exact ⟨c, t, by simp [intChars, hneg, natDigits_eq_spec, hspec], Or.inr hc⟩

theorem renderJson_head (lvl : Nat) (j : Json) :
    ∃ c t, renderJson lvl j = c :: t ∧
      (c = 'n' ∨ c = 't' ∨ c = 'f' ∨ c = '"' ∨ c = '[' ∨ c = '\x7b' ∨ c = '-' ∨
        isDigitChar c = true) := by
  cases j with
  | null => exact ⟨'n', _, rfl, by tauto⟩
  | bool b => cases b with
    | true => exact ⟨'t', _, rfl, by tauto⟩
    | false => exact ⟨'f', _, rfl, by tauto⟩
  | num n =>
    obtain ⟨c, t, hic, hc⟩ := intChars_head n
    exact ⟨c, t, by rw [renderJson, hic], by tauto⟩
  | str s => exact ⟨'"', _, rfl, by tauto⟩
  | arr xs => cases xs with
    | nil => exact ⟨'[', _, rfl, by tauto⟩
    | cons x t => exact ⟨'[', _, rfl, by tauto⟩
  | obj ms => cases ms with
    | nil => exact ⟨'\x7b', _, rfl, by tauto⟩
    | cons m t => exact ⟨'\x7b', _, rfl, by tauto⟩

theorem renderJson_head_props (lvl : Nat) (j : Json) :
    ∃ c t, renderJson lvl j = c :: t ∧ isWsChar c = false ∧ c ≠ ']' ∧ c ≠ '\x7d' := by
  obtain ⟨c, t, hr, hc⟩ := renderJson_head lvl j
  refine ⟨c, t, hr, ?_⟩
  rcases hc with rfl | rfl | rfl | rfl | rfl | rfl | rfl | hd
  · exact ⟨by decide, by decide, by decide⟩
  · exact ⟨by decide, by decide, by decide⟩
  · exact ⟨by decide, by decide, by decide⟩
  · exact ⟨by decide, by decide, by decide⟩
  · exact ⟨by decide, by decide, by decide⟩
  · exact ⟨by decide, by decide, by decide⟩
  · exact ⟨by decide, by decide, by decide⟩
  · obtain ⟨_, _, _, _, _, _, hws, hbr, hbc⟩ := isDigitChar_ne hd
    exact ⟨hws, hbr, hbc⟩

theorem skipWs_cons_not {c : Char} (cs : List Char) (h : isWsChar c = false) :
    skipWs (c :: cs) = c :: cs := by
  simp [skipWs, h]

theorem skipWs_render (lvl : Nat) (j : Json) (rest : List Char) :
    skipWs (renderJson lvl j ++ rest) = renderJson lvl j ++ rest := by
  obtain ⟨c, t, hr, hws, _, _⟩ := renderJson_head_props lvl j
  rw [hr, List.cons_append, skipWs_cons_not _ hws]

theorem skipWs_wsOnly {ws : List Char} (h : wsOnly ws = true) (cs : List Char) :
    skipWs (ws ++ cs) = skipWs cs := by
  induction ws with
  | nil => simp
  | cons c t ih =>
    simp only [wsOnly, List.all_cons, Bool.and_eq_true] at h
    rw [List.cons_append, skipWs, if_pos h.1]
    exact ih h.2

theorem wsOnly_pad (lvl : Nat) : wsOnly (pad lvl) = true := by
  simp only [wsOnly, pad, List.all_eq_true]
  intro c hc
  rw [List.eq_of_mem_replicate hc]
  decide

theorem skipWs_newline_pad (lvl : Nat) (cs : List Char) :
    skipWs ('\n' :: (pad lvl ++ cs)) = skipWs cs := by
  rw [skipWs, if_pos (by decide), skipWs_wsOnly (wsOnly_pad lvl)]

/-! ## Parser step lemmas (definitional unfoldings at successor fuel) -/

theorem pv_step (fuel : Nat) (cs : List Char) :
    parseValue (fuel + 1) cs =
      match cs with
      | [] => none
      | c :: rest =>
        if c = 'n' then
          match rest with
          | 'u' :: 'l' :: 'l' :: r => some (.null, r)
          | _ => none
        else if c = 't' then
          match rest with
          | 'r' :: 'u' :: 'e' :: r => some (.bool true, r)
          | _ => none
        else if c = 'f' then
          match rest with
          | 'a' :: 'l' :: 's' :: 'e' :: r => some (.bool false, r)
          | _ => none
        else if c = '"' then (parseStringBody (rest.length + 1) rest).map (fun p => (.str p.1, p.2))
        else if c = '[' then
          match skipWs rest with
          | ']' :: r => some (.arr [], r)
          | cs2 => (parseElems fuel cs2).map (fun p => (.arr p.1, p.2))
        else if c = '\x7b' then
          match skipWs rest with
          | '\x7d' :: r => some (.obj [], r)
          | cs2 => (parseMembers fuel cs2).map (fun p => (.obj p.1, p.2))
        else (parseNumber (c :: rest)).map (fun p => (.num p.1, p.2)) := rfl

theorem pe_step (fuel : Nat) (cs : List Char) :
    parseElems (fuel + 1) cs =
      match parseValue fuel cs with
      | none => none
      | some (v, r) =>
        match skipWs r with
        | ',' :: r2 => (parseElems fuel (skipWs r2)).map (fun p => (v :: p.1, p.2))
        | ']' :: r2 => some ([v], r2)
        | _ => none := rfl

theorem pm_step (fuel : Nat) (cs : List Char) :
    parseMembers (fuel + 1) cs =
      match cs with
      | '"' :: r =>
        match parseStringBody (r.length + 1) r with
        | none => none
        | some (k, r1) =>
          match skipWs r1 with
          | ':' :: r2 =>
            match parseValue fuel (skipWs r2) with
            | none => none
            | some (v, r3) =>
              match skipWs r3 with
              | ',' :: r4 => (parseMembers fuel (skipWs r4)).map (fun p => ((k, v) :: p.1, p.2))
              | '\x7d' :: r4 => some ([(k, v)], r4)
              | _ => none
          | _ => none
      | _ => none := rfl

theorem pv_default (fuel : Nat) {c : Char} (r : List Char) (hn : ¬c = 'n') (ht : ¬c = 't')
    (hf : ¬c = 'f') (hq : ¬c = '"') (hbk : ¬c = '[') (hbc : ¬c = '\x7b') :
    parseValue (fuel + 1) (c :: r) = (parseNumber (c :: r)).map (fun p => (.num p.1, p.2)) := by
  rw [pv_step]
  simp only [if_neg hn, if_neg ht, if_neg hf, if_neg hq, if_neg hbk, if_neg hbc]

/-! ## Boundary characters after a rendered element -/

theorem numBoundary_arrTail (lvl : Nat) (xs : List Json) (z : List Char) :
    numBoundary (renderArrTail lvl xs ++ '\n' :: z) = true := by
  cases xs with
  | nil => rfl
  | cons y ys => rfl

theorem numBoundary_objTail (lvl : Nat) (ms : List (List Char × Json)) (z : List Char) :
    numBoundary (renderObjTail lvl ms ++ '\n' :: z) = true := by
  cases ms with
  | nil => rfl
  | cons m ms => rfl

set_option maxHeartbeats 1000000 in
theorem escapeChar_length_pos (c : Char) : 1 ≤ (escapeChar c).length := by
  unfold escapeChar
  split_ifs <;> simp [hex4]

theorem escapeList_length_ge (s : List Char) : s.length ≤ (escapeList s).length := by
  induction s with
  | nil => simp [escapeList]
  | cons c t ih =>
    have := escapeChar_length_pos c
    simp only [escapeList, List.length_cons, List.length_append]
    omega

theorem jsize_pos (j : Json) : 1 ≤ jsize j := by
  cases j <;> simp [jsize]

theorem asize_pos (xs : List Json) : 1 ≤ asize xs := by
  cases xs with
  | nil => simp [asize]
  | cons x t => simp only [asize]; omega

theorem msize_pos (ms : List (List Char × Json)) : 1 ≤ msize ms := by
  cases ms with
  | nil => simp [msize]
  | cons m ms => obtain ⟨k, v⟩ := m; simp only [msize]; omega

theorem pv_str (fuel : Nat) (r : List Char) :
    parseValue (fuel + 1) ('"' :: r) =
      (parseStringBody (r.length + 1) r).map (fun p => (.str p.1, p.2)) := rfl

theorem pv_arr (fuel : Nat) (r : List Char) :
    parseValue (fuel + 1) ('[' :: r) =
      match skipWs r with
      | ']' :: r2 => some (.arr [], r2)
      | cs2 => (parseElems fuel cs2).map (fun p => (.arr p.1, p.2)) := rfl

theorem pv_obj (fuel : Nat) (r : List Char) :
    parseValue (fuel + 1) ('\x7b' :: r) =
      match skipWs r with
      | '\x7d' :: r2 => some (.obj [], r2)
      | cs2 => (parseMembers fuel cs2).map (fun p => (.obj p.1, p.2)) := rfl

theorem skipWs_space (cs : List Char) : skipWs (' ' :: cs) = skipWs cs := by
  rw [skipWs, if_pos (by decide)]

theorem renderMember_cons (lvl : Nat) (k : List Char) (v : Json) (z : List Char) :
    renderMember lvl (k, v) ++ z =
      '"' :: (escapeList k ++ '"' :: ':' :: ' ' :: (renderJson lvl v ++ z)) := by
  simp [renderMember, quoteString]

theorem pe_step_close (fuel : Nat) {cs r : List Char} {v : Json} {r2 : List Char}
    (h : parseValue fuel cs = some (v, r)) (hr : skipWs r = ']' :: r2) :
    parseElems (fuel + 1) cs = some ([v], r2) := by
  rw [pe_step]
  simp only [h, hr]

theorem pe_step_comma (fuel : Nat) {cs r : List Char} {v : Json} {r2 : List Char}
    (h : parseValue fuel cs = some (v, r)) (hr : skipWs r = ',' :: r2) :
    parseElems (fuel + 1) cs = (parseElems fuel (skipWs r2)).map (fun p => (v :: p.1, p.2)) := by
  rw [pe_step]
  simp only [h, hr]

theorem pm_step_some (fuel : Nat) (r : List Char) {k r1 : List Char}
    (hk : parseStringBody (r.length + 1) r = some (k, r1)) {r2 : List Char}
    (h1 : skipWs r1 = ':' :: r2) {v : Json} {r3 : List Char}
    (hv : parseValue fuel (skipWs r2) = some (v, r3)) :
    parseMembers (fuel + 1) ('"' :: r) =
      match skipWs r3 with
      | ',' :: r4 => (parseMembers fuel (skipWs r4)).map (fun p => ((k, v) :: p.1, p.2))
      | '\x7d' :: r4 => some ([(k, v)], r4)
      | _ => none := by
  rw [pm_step]
  simp only [hk, h1, hv]

theorem pm_step_close (fuel : Nat) (r : List Char) {k r1 : List Char}
    (hk : parseStringBody (r.length + 1) r = some (k, r1)) {r2 : List Char}
    (h1 : skipWs r1 = ':' :: r2) {v : Json} {r3 : List Char}
    (hv : parseValue fuel (skipWs r2) = some (v, r3)) {r4 : List Char}
    (h3 : skipWs r3 = '\x7d' :: r4) :
    parseMembers (fuel + 1) ('"' :: r) = some ([(k, v)], r4) := by
  rw [pm_step_some fuel r hk h1 hv]
  simp only [h3]

theorem pm_step_comma (fuel : Nat) (r : List Char) {k r1 : List Char}
    (hk : parseStringBody (r.length + 1) r = some (k, r1)) {r2 : List Char}
    (h1 : skipWs r1 = ':' :: r2) {v : Json} {r3 : List Char}
    (hv : parseValue fuel (skipWs r2) = some (v, r3)) {r4 : List Char}
    (h3 : skipWs r3 = ',' :: r4) :
    parseMembers (fuel + 1) ('"' :: r) =
      (parseMembers fuel (skipWs r4)).map (fun p => ((k, v) :: p.1, p.2)) := by
  rw [pm_step_some fuel r hk h1 hv]
  simp only [h3]

/-! ## The decoder inverts the renderer -/

theorem roundtrip_master : ∀ fuel : Nat,
    (∀ (lvl : Nat) (j : Json) (rest : List Char), jsize j ≤ fuel → numBoundary rest = true →
      parseValue fuel (renderJson lvl j ++ rest) = some (j, rest)) ∧
    (∀ (lvl : Nat) (x : Json) (xs : List Json) (pd rest : List Char), wsOnly pd = true →
      1 + jsize x + asize xs ≤ fuel →
      parseElems fuel
          (renderJson lvl x ++ (renderArrTail lvl xs ++ '\n' :: (pd ++ ']' :: rest))) =
        some (x :: xs, rest)) ∧
    (∀ (lvl : Nat) (k : List Char) (v : Json) (ms : List (List Char × Json)) (pd rest : List Char),
      wsOnly pd = true → 1 + jsize v + msize ms ≤ fuel →
      parseMembers fuel
          (renderMember lvl (k, v) ++ (renderObjTail lvl ms ++ '\n' :: (pd ++ '\x7d' :: rest))) =
        some ((k, v) :: ms, rest)) := by
  intro fuel
  induction fuel with
  | zero =>
    refine ⟨?_, ?_, ?_⟩
    · intro lvl j rest hsz _
      exact absurd hsz (by have := jsize_pos j; omega)
    · intro lvl x xs pd rest _ hsz
      exact absurd hsz (by omega)
    · intro lvl k v ms pd rest _ hsz
      exact absurd hsz (by omega)
  | succ fuel ih =>
    obtain ⟨ihv, iha, ihm⟩ := ih
    refine ⟨?_, ?_, ?_⟩
    · -- parseValue on a rendered value
      intro lvl j rest hsz hrest
      cases j with
      | null => rfl
      | bool b => cases b <;> rfl
      | num n =>
        have hr : renderJson lvl (.num n) = intChars n := rfl
        rw [hr]
        obtain ⟨c, t, hic, hc⟩ := intChars_head n
        have hnum : parseNumber (c :: (t ++ rest)) = some (n, rest) := by
          have := parseNumber_intChars n rest hrest
          rwa [hic, List.cons_append] at this
        rw [hic, List.cons_append]
        rcases hc with rfl | hd
        · rw [pv_default fuel _ (by decide) (by decide) (by decide) (by decide) (by decide)
            (by decide), hnum]
          rfl
        · obtain ⟨hn, ht, hf, hq, hbk, hbc, _, _, _⟩ := isDigitChar_ne hd
          rw [pv_default fuel _ hn ht hf hq hbk hbc, hnum]
          rfl
      | str s =>
        have hr : renderJson lvl (.str s) ++ rest = '"' :: (escapeList s ++ '"' :: rest) := by
          show quoteString s ++ rest = _
          simp [quoteString]
        have hlen : s.length < (escapeList s ++ '"' :: rest).length + 1 := by
          have := escapeList_length_ge s
          simp only [List.length_append, List.length_cons]
          omega
        rw [hr, pv_str, parseStringBody_escapeList s _ rest hlen]
        rfl
      | arr xs =>
        cases xs with
        | nil => rfl
        | cons x xs =>
          have hr : renderJson lvl (.arr (x :: xs)) ++ rest =
              '[' :: '\n' :: (pad (lvl + 1) ++ (renderJson (lvl + 1) x ++
                (renderArrTail (lvl + 1) xs ++ '\n' :: (pad lvl ++ ']' :: rest)))) := by
            show ('[' :: '\n' :: (pad (lvl + 1) ++ renderJson (lvl + 1) x ++
              renderArrTail (lvl + 1) xs ++ '\n' :: (pad lvl ++ [']']))) ++ rest = _
            simp
          rw [hr, pv_arr, skipWs_newline_pad, skipWs_render]
          obtain ⟨c, t, hx, _, hbr, _⟩ := renderJson_head_props (lvl + 1) x
          have hsz' : 1 + jsize x + asize xs ≤ fuel := by
            have h1 : jsize (.arr (x :: xs)) = 1 + (1 + jsize x + asize xs) := by
              simp [jsize, asize]
            omega
          rw [hx, List.cons_append]
          split
          · rename_i r2 heq
            injection heq with h1 _
            exact absurd h1 hbr
          · rw [← List.cons_append, ← hx,
              iha (lvl + 1) x xs (pad lvl) rest (wsOnly_pad lvl) hsz']
            rfl
      | obj ms =>
        cases ms with
        | nil => rfl
        | cons m ms =>
          obtain ⟨k, v⟩ := m
          have hr : renderJson lvl (.obj ((k, v) :: ms)) ++ rest =
              '\x7b' :: '\n' :: (pad (lvl + 1) ++ (renderMember (lvl + 1) (k, v) ++
                (renderObjTail (lvl + 1) ms ++ '\n' :: (pad lvl ++ '\x7d' :: rest)))) := by
            show ('\x7b' :: '\n' :: (pad (lvl + 1) ++ renderMember (lvl + 1) (k, v) ++
              renderObjTail (lvl + 1) ms ++ '\n' :: (pad lvl ++ ['\x7d']))) ++ rest = _
            simp
          have hsk : skipWs (renderMember (lvl + 1) (k, v) ++
              (renderObjTail (lvl + 1) ms ++ '\n' :: (pad lvl ++ '\x7d' :: rest))) =
              renderMember (lvl + 1) (k, v) ++
                (renderObjTail (lvl + 1) ms ++ '\n' :: (pad lvl ++ '\x7d' :: rest)) := by
            rw [renderMember_cons, skipWs_cons_not _ (by decide)]
          have hsz' : 1 + jsize v + msize ms ≤ fuel := by
            have h1 : jsize (.obj ((k, v) :: ms)) = 1 + (1 + jsize v + msize ms) := by
              simp [jsize, msize]
            omega
          rw [hr, pv_obj, skipWs_newline_pad, hsk, renderMember_cons]
          split
          · rename_i r2 heq
            injection heq with h1 _
            exact absurd h1 (by decide)
          · have hbody := ihm (lvl + 1) k v ms (pad lvl) rest (wsOnly_pad lvl) hsz'
            rw [renderMember_cons] at hbody
            rw [hbody]
            rfl
    · -- parseElems on rendered elements
      intro lvl x xs pd rest hws hsz
      have hx : parseValue fuel
          (renderJson lvl x ++ (renderArrTail lvl xs ++ '\n' :: (pd ++ ']' :: rest))) =
          some (x, renderArrTail lvl xs ++ '\n' :: (pd ++ ']' :: rest)) := by
        have hb : numBoundary (renderArrTail lvl xs ++ '\n' :: (pd ++ ']' :: rest)) = true :=
          numBoundary_arrTail lvl xs (pd ++ ']' :: rest)
        exact ihv lvl x _ (by have := asize_pos xs; omega) hb
      cases xs with
      | nil =>
        have hsk : skipWs (renderArrTail lvl [] ++ '\n' :: (pd ++ ']' :: rest)) =
            ']' :: rest := by
          show skipWs ('\n' :: (pd ++ ']' :: rest)) = ']' :: rest
          rw [skipWs, if_pos (by decide), skipWs_wsOnly hws, skipWs_cons_not _ (by decide)]
        rw [pe_step_close fuel hx hsk]
      | cons y ys =>
        have hsk : skipWs (renderArrTail lvl (y :: ys) ++ '\n' :: (pd ++ ']' :: rest)) =
            ',' :: ('\n' :: (pad lvl ++ (renderJson lvl y ++
              (renderArrTail lvl ys ++ '\n' :: (pd ++ ']' :: rest))))) := by
          have hsh : renderArrTail lvl (y :: ys) ++ '\n' :: (pd ++ ']' :: rest) =
              ',' :: ('\n' :: (pad lvl ++ (renderJson lvl y ++
                (renderArrTail lvl ys ++ '\n' :: (pd ++ ']' :: rest))))) := by
            show (',' :: '\n' :: (pad lvl ++ renderJson lvl y ++ renderArrTail lvl ys)) ++
              '\n' :: (pd ++ ']' :: rest) = _
            simp
          rw [hsh, skipWs_cons_not _ (by decide)]
        rw [pe_step_comma fuel hx hsk, skipWs_newline_pad, skipWs_render,
          iha lvl y ys pd rest hws (by simp only [asize] at hsz; omega)]
        rfl
    · -- parseMembers on rendered members
      intro lvl k v ms pd rest hws hsz
      rw [renderMember_cons]
      have hklen : k.length < (escapeList k ++ '"' :: ':' :: ' ' :: (renderJson lvl v ++
          (renderObjTail lvl ms ++ '\n' :: (pd ++ '\x7d' :: rest)))).length + 1 := by
        have := escapeList_length_ge k
        simp only [List.length_append, List.length_cons]
        omega
      have hkey : parseStringBody ((escapeList k ++ '"' :: ':' :: ' ' :: (renderJson lvl v ++
          (renderObjTail lvl ms ++ '\n' :: (pd ++ '\x7d' :: rest)))).length + 1)
          (escapeList k ++ '"' :: (':' :: ' ' :: (renderJson lvl v ++
            (renderObjTail lvl ms ++ '\n' :: (pd ++ '\x7d' :: rest))))) =
          some (k, ':' :: ' ' :: (renderJson lvl v ++
            (renderObjTail lvl ms ++ '\n' :: (pd ++ '\x7d' :: rest)))) :=
        parseStringBody_escapeList k _ _ hklen
      have h1 : skipWs (':' :: ' ' :: (renderJson lvl v ++
          (renderObjTail lvl ms ++ '\n' :: (pd ++ '\x7d' :: rest)))) =
          ':' :: (' ' :: (renderJson lvl v ++
            (renderObjTail lvl ms ++ '\n' :: (pd ++ '\x7d' :: rest)))) :=
        skipWs_cons_not _ (by decide)
      have hval : parseValue fuel (skipWs (' ' :: (renderJson lvl v ++
          (renderObjTail lvl ms ++ '\n' :: (pd ++ '\x7d' :: rest))))) =
          some (v, renderObjTail lvl ms ++ '\n' :: (pd ++ '\x7d' :: rest)) := by
        rw [skipWs_space, skipWs_render]
        exact ihv lvl v _ (by have := msize_pos ms; omega)
          (numBoundary_objTail lvl ms (pd ++ '\x7d' :: rest))
      cases ms with
      | nil =>
        have hsk : skipWs (renderObjTail lvl [] ++ '\n' :: (pd ++ '\x7d' :: rest)) =
            '\x7d' :: rest := by
          show skipWs ('\n' :: (pd ++ '\x7d' :: rest)) = '\x7d' :: rest
          rw [skipWs, if_pos (by decide), skipWs_wsOnly hws, skipWs_cons_not _ (by decide)]
        rw [pm_step_close fuel _ hkey h1 hval hsk]
      | cons m2 ms2 =>
        obtain ⟨k2, v2⟩ := m2
        have hsk : skipWs (renderObjTail lvl ((k2, v2) :: ms2) ++
            '\n' :: (pd ++ '\x7d' :: rest)) =
            ',' :: ('\n' :: (pad lvl ++ (renderMember lvl (k2, v2) ++
              (renderObjTail lvl ms2 ++ '\n' :: (pd ++ '\x7d' :: rest))))) := by
          have hsh : renderObjTail lvl ((k2, v2) :: ms2) ++ '\n' :: (pd ++ '\x7d' :: rest) =
              ',' :: ('\n' :: (pad lvl ++ (renderMember lvl (k2, v2) ++
                (renderObjTail lvl ms2 ++ '\n' :: (pd ++ '\x7d' :: rest))))) := by
            show (',' :: '\n' :: (pad lvl ++ renderMember lvl (k2, v2) ++
              renderObjTail lvl ms2)) ++ '\n' :: (pd ++ '\x7d' :: rest) = _
            simp
          rw [hsh, skipWs_cons_not _ (by decide)]
        rw [pm_step_comma fuel _ hkey h1 hval hsk, skipWs_newline_pad]
        have hskipm : skipWs (renderMember lvl (k2, v2) ++
            (renderObjTail lvl ms2 ++ '\n' :: (pd ++ '\x7d' :: rest))) =
            renderMember lvl (k2, v2) ++
              (renderObjTail lvl ms2 ++ '\n' :: (pd ++ '\x7d' :: rest)) := by
          rw [renderMember_cons, skipWs_cons_not _ (by decide), ← renderMember_cons]
        rw [hskipm, ihm lvl k2 v2 ms2 pd rest hws (by simp only [msize] at hsz; omega)]
        rfl

mutual
theorem jsize_le_renderLen (lvl : Nat) (j : Json) : jsize j ≤ (renderJson lvl j).length := by
  cases j with
  | null => simp [jsize, renderJson]
  | bool b => cases b <;> simp [jsize, renderJson]
  | num n =>
    obtain ⟨c, t, hic, _⟩ := intChars_head n
    simp [jsize, renderJson, hic]
  | str s => simp [jsize, renderJson, quoteString]
  | arr xs =>
    cases xs with
    | nil => simp [jsize, asize, renderJson]
    | cons x t =>
      have h1 := jsize_le_renderLen (lvl + 1) x
      have h2 := asize_le_tailLen (lvl + 1) t
      simp only [jsize, asize, renderJson, List.length_cons, List.length_append]
      omega
  | obj ms =>
    cases ms with
    | nil => simp [jsize, msize, renderJson]
    | cons m t =>
      obtain ⟨k, v⟩ := m
      have h1 := jsize_le_renderLen (lvl + 1) v
      have h2 := msize_le_tailLen (lvl + 1) t
      simp only [jsize, msize, renderJson, renderMember, quoteString, List.length_cons,
        List.length_append]
      omega
theorem asize_le_tailLen (lvl : Nat) (xs : List Json) :
    asize xs ≤ (renderArrTail lvl xs).length + 2 := by
  cases xs with
  | nil => simp [asize, renderArrTail]
  | cons y ys =>
    have h1 := jsize_le_renderLen lvl y
    have h2 := asize_le_tailLen lvl ys
    simp only [asize, renderArrTail, List.length_cons, List.length_append]
    omega
theorem msize_le_tailLen (lvl : Nat) (ms : List (List Char × Json)) :
    msize ms ≤ (renderObjTail lvl ms).length + 2 := by
  cases ms with
  | nil => simp [msize, renderObjTail]
  | cons m t =>
    obtain ⟨k, v⟩ := m
    have h1 := jsize_le_renderLen lvl v
    have h2 := msize_le_tailLen lvl t
    simp only [msize, renderObjTail, renderMember, quoteString, List.length_cons,
      List.length_append]
    omega
end

/-- `json.load` inverts `json.dumps(..., indent=2)`: re-reading a document the
server serialized yields the same JSON value. -/
theorem json_loads_dumps (j : Json) : json_loads (json_dumps j) = some j := by
  have hj := jsize_le_renderLen 0 j
  have hrt := (roundtrip_master ((renderJson 0 j).length + 1)).1 0 j [] (by omega) rfl
  rw [List.append_nil] at hrt
  have hsw : skipWs (renderJson 0 j) = renderJson 0 j := by
    have := skipWs_render 0 j []
    simpa using this
  show json_loads (renderJson 0 j) = some j
  rw [json_loads, hsw, hrt]
  rfl

/-! ## Server-layer lemmas -/

theorem digitsVal_natDigits (n : Nat) : parseDigitsAux 0 (natDigits n) = (n, []) := by
  have h := parseDigitsAux_spec_val n [] rfl
  rwa [List.append_nil, ← natDigits_eq_spec] at h

theorem do_GET_health (rootDir : List String) (fs : List String → Option (List Char))
    (cwd : List String) (req : String) (h : urlparse_path req = "/api/health") :
    do_GET rootDir fs cwd req = healthBranch := by
  simp [do_GET, h]

theorem do_GET_sample (rootDir : List String) (fs : List String → Option (List Char))
    (cwd : List String) (req : String) (h : urlparse_path req = "/api/sample-graph") :
    do_GET rootDir fs cwd req = sampleGraphBranch rootDir fs := by
  have hne : ("/api/sample-graph" : String) ≠ "/api/health" := by decide
  simp [do_GET, h, hne]

theorem do_GET_static (rootDir : List String) (fs : List String → Option (List Char))
    (cwd : List String) (req : String) (h1 : ¬urlparse_path req = "/api/health")
    (h2 : ¬urlparse_path req = "/api/sample-graph") :
    do_GET rootDir fs cwd req = staticBranch cwd (urlparse_path req) := by
  simp [do_GET, h1, h2]

theorem sampleGraphBranch_missing (rootDir : List String)
    (fs : List String → Option (List Char)) (h : fs (SAMPLE_GRAPH_PATH rootDir) = none) :
    sampleGraphBranch rootDir fs =
      (.response (send_json 404 (missingJson rootDir)), [.probe (SAMPLE_GRAPH_PATH rootDir)]) := by
  simp [sampleGraphBranch, h]

theorem sampleGraphBranch_invalid (rootDir : List String)
    (fs : List String → Option (List Char)) (content : List Char)
    (hc : fs (SAMPLE_GRAPH_PATH rootDir) = some content) (hl : json_loads content = none) :
    sampleGraphBranch rootDir fs =
      (.exception, [.probe (SAMPLE_GRAPH_PATH rootDir), .read (SAMPLE_GRAPH_PATH rootDir)]) := by
  simp [sampleGraphBranch, hc, hl]

theorem sampleGraphBranch_ok (rootDir : List String)
    (fs : List String → Option (List Char)) (content : List Char) (j : Json)
    (hc : fs (SAMPLE_GRAPH_PATH rootDir) = some content) (hl : json_loads content = some j) :
    sampleGraphBranch rootDir fs =
      (.response (send_json 200 j),
        [.probe (SAMPLE_GRAPH_PATH rootDir), .read (SAMPLE_GRAPH_PATH rootDir)]) := by
  simp [sampleGraphBranch, hc, hl]

theorem response_is_send_json (rootDir : List String) (fs : List String → Option (List Char))
    (cwd : List String) (req : String) (r : HttpResponse) (ops : List FsOp)
    (h : do_GET rootDir fs cwd req = (.response r, ops)) :
    ∃ status payload, r = send_json status payload := by
  by_cases h1 : urlparse_path req = "/api/health"
  · rw [do_GET_health rootDir fs cwd req h1, healthBranch] at h
    simp only [Prod.mk.injEq, Outcome.response.injEq] at h
    exact ⟨200, healthJson, h.1.symm⟩
  by_cases h2 : urlparse_path req = "/api/sample-graph"
  · rw [do_GET_sample rootDir fs cwd req h2] at h
    rcases hf : fs (SAMPLE_GRAPH_PATH rootDir) with _ | content
    · rw [sampleGraphBranch_missing rootDir fs hf] at h
      simp only [Prod.mk.injEq, Outcome.response.injEq] at h
      exact ⟨404, missingJson rootDir, h.1.symm⟩
    · rcases hl : json_loads content with _ | j
      · rw [sampleGraphBranch_invalid rootDir fs content hf hl] at h
        simp only [Prod.mk.injEq] at h
        exact absurd h.1 (by simp)
      · rw [sampleGraphBranch_ok rootDir fs content j hf hl] at h
        simp only [Prod.mk.injEq, Outcome.response.injEq] at h
        exact ⟨200, j, h.1.symm⟩
  · rw [do_GET_static rootDir fs cwd req h1 h2, staticBranch] at h
    simp only [Prod.mk.injEq] at h
    exact absurd h.1 (by simp)

/-! ## The claims -/

/-- C1: a GET of `/api/sample-graph` while the file exists but holds invalid
JSON escapes `do_GET` as an unhandled exception (neither a 404 nor a normal
response), which the surrounding framework surfaces as a 500 for exactly
that request; requests before and after it in a serving run are answered
exactly as they would be on their own, so the server process survives. -/
theorem c1_malformed_sample_graph_500 (rootDir cwd : List String)
    (fs : List String → Option (List Char)) (req : String) (content : List Char)
    (hreq : urlparse_path req = "/api/sample-graph")
    (hfile : fs (SAMPLE_GRAPH_PATH rootDir) = some content)
    (hbad : json_loads content = none) :
    (do_GET rootDir fs cwd req).1 = .exception ∧
    (do_GET rootDir fs cwd req).1 ≠
      .response (send_json 404 (missingJson rootDir)) ∧
    observedStatus (do_GET rootDir fs cwd req).1 = some 500 ∧
    (∀ rs1 rs2 : List String,
      serverRun rootDir fs cwd (rs1 ++ req :: rs2) =
        serverRun rootDir fs cwd rs1 ++ some 500 :: serverRun rootDir fs cwd rs2) := by
  have hdo : do_GET rootDir fs cwd req =
      (.exception, [.probe (SAMPLE_GRAPH_PATH rootDir), .read (SAMPLE_GRAPH_PATH rootDir)]) := by
    rw [do_GET_sample rootDir fs cwd req hreq,
      sampleGraphBranch_invalid rootDir fs content hfile hbad]
  refine ⟨by rw [hdo], by rw [hdo]; simp, by rw [hdo]; rfl, ?_⟩
  intro rs1 rs2
  simp only [serverRun, List.map_append, List.map_cons]
  rw [hdo]
  rfl

/-- C1 witness at a concrete world: the file holds `not json`, and the
request observes a 500. -/
theorem c1_malformed_sample_graph_500_witness :
    json_loads ("not json".data) = none ∧
    observedStatus (do_GET ["app"]
      (fun p => if p = SAMPLE_GRAPH_PATH ["app"] then some ("not json".data) else none)
      ["app", "dist"] "/api/sample-graph").1 = some 500 :=
  ⟨rfl, (c1_malformed_sample_graph_500 ["app"] ["app", "dist"]
    (fun p => if p = SAMPLE_GRAPH_PATH ["app"] then some ("not json".data) else none)
    "/api/sample-graph" ("not json".data) rfl rfl rfl).2.2.1⟩

/-- C2: a GET of `/api/sample-graph` while the file holds valid JSON with
value `j` responds 200 with body `json.dumps(j, indent=2)`, and decoding
that body gives back exactly `j` — the same JSON value the file holds,
modulo the pretty-printed formatting. -/
theorem c2_sample_graph_passthrough (rootDir cwd : List String)
    (fs : List String → Option (List Char)) (req : String) (content : List Char) (j : Json)
    (hreq : urlparse_path req = "/api/sample-graph")
    (hfile : fs (SAMPLE_GRAPH_PATH rootDir) = some content)
    (hok : json_loads content = some j) :
    (do_GET rootDir fs cwd req).1 = .response (send_json 200 j) ∧
    (send_json 200 j).status = 200 ∧
    (send_json 200 j).body = json_dumps j ∧
    json_loads ((send_json 200 j).body) = some j := by
  refine ⟨?_, rfl, rfl, json_loads_dumps j⟩
  rw [do_GET_sample rootDir fs cwd req hreq,
    sampleGraphBranch_ok rootDir fs content j hfile hok]

/-- C2 witness: the file holds the spec's example document
`\x7b"nodes": [], "edges": []\x7d`, and the response carries the same value. -/
theorem c2_sample_graph_passthrough_witness :
    json_loads ("\x7b\"nodes\": [], \"edges\": []\x7d".data) =
      some (.obj [("nodes".data, .arr []), ("edges".data, .arr [])]) ∧
    (do_GET ["app"]
      (fun p => if p = SAMPLE_GRAPH_PATH ["app"]
        then some ("\x7b\"nodes\": [], \"edges\": []\x7d".data) else none)
      ["app", "dist"] "/api/sample-graph").1 =
      .response (send_json 200 (.obj [("nodes".data, .arr []), ("edges".data, .arr [])])) :=
  ⟨rfl, (c2_sample_graph_passthrough ["app"] ["app", "dist"]
    (fun p => if p = SAMPLE_GRAPH_PATH ["app"]
      then some ("\x7b\"nodes\": [], \"edges\": []\x7d".data) else none)
    "/api/sample-graph" ("\x7b\"nodes\": [], \"edges\": []\x7d".data)
    (.obj [("nodes".data, .arr []), ("edges".data, .arr [])]) rfl rfl rfl).1⟩

/-- C3: a GET of `/api/sample-graph` while the file is absent responds 404
with a JSON body that decodes to an object carrying both an `error` and a
`path` key, and the handler raises no exception. -/
theorem c3_missing_sample_graph_404 (rootDir cwd : List String)
    (fs : List String → Option (List Char)) (req : String)
    (hreq : urlparse_path req = "/api/sample-graph")
    (hfile : fs (SAMPLE_GRAPH_PATH rootDir) = none) :
    (do_GET rootDir fs cwd req).1 = .response (send_json 404 (missingJson rootDir)) ∧
    (send_json 404 (missingJson rootDir)).status = 404 ∧
    json_loads ((send_json 404 (missingJson rootDir)).body) = some (missingJson rootDir) ∧
    (∃ ms, missingJson rootDir = .obj ms ∧
      (jlookup ms ("error".data)).isSome = true ∧ (jlookup ms ("path".data)).isSome = true) ∧
    (do_GET rootDir fs cwd req).1 ≠ .exception := by
  have hdo : do_GET rootDir fs cwd req =
      (.response (send_json 404 (missingJson rootDir)), [.probe (SAMPLE_GRAPH_PATH rootDir)]) := by
    rw [do_GET_sample rootDir fs cwd req hreq, sampleGraphBranch_missing rootDir fs hfile]
  refine ⟨by rw [hdo], rfl, json_loads_dumps _, ⟨_, rfl, rfl, rfl⟩, by rw [hdo]; simp⟩

/-- C3 witness at a concrete world with no files. -/
theorem c3_missing_sample_graph_404_witness :
    (do_GET ["app"] (fun _ => none) ["app", "dist"] "/api/sample-graph").1 =
      .response (send_json 404 (missingJson ["app"])) ∧
    (send_json 404 (missingJson ["app"])).status = 404 :=
  ⟨(c3_missing_sample_graph_404 ["app"] ["app", "dist"] (fun _ => none)
    "/api/sample-graph" rfl rfl).1,
   (c3_missing_sample_graph_404 ["app"] ["app", "dist"] (fun _ => none)
    "/api/sample-graph" rfl rfl).2.1⟩

/-- C4: a GET whose parsed path is `/api/health` responds 200 regardless of
the filesystem (and of anything else, the handler being a pure function of
its inputs), with a JSON body decoding to an object whose `status`,
`service` and `message` fields are the three fixed strings. -/
theorem c4_health_fixed_response (rootDir cwd : List String)
    (fs : List String → Option (List Char)) (req : String)
    (hreq : urlparse_path req = "/api/health") :
    (do_GET rootDir fs cwd req).1 = .response (send_json 200 healthJson) ∧
    (send_json 200 healthJson).status = 200 ∧
    json_loads ((send_json 200 healthJson).body) = some healthJson ∧
    (∃ ms, healthJson = .obj ms ∧
      jlookup ms ("status".data) = some (.str ("ok".data)) ∧
      jlookup ms ("service".data) = some (.str ("sn-itil-bsm-discovery-backend".data)) ∧
      jlookup ms ("message".data) = some (.str ("alive".data))) := by
  refine ⟨?_, rfl, json_loads_dumps _, ⟨_, rfl, rfl, rfl, rfl⟩⟩
  rw [do_GET_health rootDir fs cwd req hreq]
  rfl

/-- C4 witness: a plain `/api/health` request against an empty filesystem. -/
theorem c4_health_fixed_response_witness :
    (do_GET ["app"] (fun _ => none) ["app", "dist"] "/api/health").1 =
      .response (send_json 200 healthJson) :=
  (c4_health_fixed_response ["app"] ["app", "dist"] (fun _ => none) "/api/health" rfl).1

/-- C5: every JSON response the handler produces (health, sample-graph
success, sample-graph error) carries the fixed `Content-Type`,
`Cache-Control` and `Access-Control-Allow-Origin` headers, and a
`Content-Length` whose decimal value is exactly the UTF-8 byte length of
the body. -/
theorem c5_json_response_headers (rootDir cwd : List String)
    (fs : List String → Option (List Char)) (req : String) (r : HttpResponse) (ops : List FsOp)
    (h : do_GET rootDir fs cwd req = (.response r, ops)) :
    ("Content-Type", "application/json; charset=utf-8".data) ∈ r.headers ∧
    ("Cache-Control", "no-cache".data) ∈ r.headers ∧
    ("Access-Control-Allow-Origin", "*".data) ∈ r.headers ∧
    ∃ v, ("Content-Length", v) ∈ r.headers ∧ parseDigitsAux 0 v = (utf8Len r.body, []) := by
  obtain ⟨status, payload, rfl⟩ := response_is_send_json rootDir fs cwd req r ops h
  refine ⟨by simp [send_json], by simp [send_json], by simp [send_json],
    natDigits (utf8Len (json_dumps payload)), by simp [send_json], ?_⟩
  exact digitsVal_natDigits _

/-- C5 witness: the health response of a concrete request. -/
theorem c5_json_response_headers_witness :
    ("Access-Control-Allow-Origin", "*".data) ∈ (send_json 200 healthJson).headers ∧
    (∃ v, ("Content-Length", v) ∈ (send_json 200 healthJson).headers ∧
      parseDigitsAux 0 v = (utf8Len (send_json 200 healthJson).body, [])) := by
  have h := c5_json_response_headers ["app"] ["app", "dist"] (fun _ => none) "/api/health"
    (send_json 200 healthJson) []
    (by rw [do_GET_health ["app"] (fun _ => none) ["app", "dist"] "/api/health" rfl]; rfl)
  exact ⟨h.2.2.1, h.2.2.2⟩

/-- C6: `main` returns 1 exactly when the resolved static root is absent or
not a directory — printing to stderr and never constructing the server
socket in that case — and returns 0 otherwise, whether or not the serving
loop ended through `KeyboardInterrupt`; no other exit code exists. -/
theorem c6_exit_codes (rootDir : List String) (args : Args) (w : World) :
    ((mainModel rootDir args w).exitCode = 1 ↔
      ¬(w.dirExists (rootDir ++ [args.root]) = true ∧
        w.dirIsDir (rootDir ++ [args.root]) = true)) ∧
    ((mainModel rootDir args w).exitCode = 1 →
      (mainModel rootDir args w).boundSocket = false ∧
        (mainModel rootDir args w).stderrLines ≠ []) ∧
    ((w.dirExists (rootDir ++ [args.root]) = true ∧
        w.dirIsDir (rootDir ++ [args.root]) = true) →
      (mainModel rootDir args w).exitCode = 0) ∧
    (∀ b : Bool, (mainModel rootDir args { w with interrupted := b }).exitCode =
      (mainModel rootDir args w).exitCode) := by
  by_cases hc : w.dirExists (rootDir ++ [args.root]) = true ∧
      w.dirIsDir (rootDir ++ [args.root]) = true
  · refine ⟨?_, ?_, ?_, ?_⟩ <;>
      simp [mainModel, Bool.and_eq_true, hc.1, hc.2]
  · have h1 : ¬(w.dirExists (rootDir ++ [args.root]) && w.dirIsDir (rootDir ++ [args.root])) =
        true := by
      rw [Bool.and_eq_true]
      exact hc
    refine ⟨?_, ?_, ?_, ?_⟩ <;>
      simp [mainModel, h1, hc]

/-- C6 witness: a world where the static root is missing exits 1 with an
error line and no socket; one where it exists exits 0. -/
theorem c6_exit_codes_witness :
    (mainModel ["app"] ⟨"127.0.0.1", 3000, "dist"⟩
      ⟨fun _ => false, fun _ => false, false⟩).exitCode = 1 ∧
    (mainModel ["app"] ⟨"127.0.0.1", 3000, "dist"⟩
      ⟨fun _ => false, fun _ => false, false⟩).boundSocket = false ∧
    (mainModel ["app"] ⟨"127.0.0.1", 3000, "dist"⟩
      ⟨fun _ => true, fun _ => true, true⟩).exitCode = 0 := by
  have h1 := c6_exit_codes ["app"] ⟨"127.0.0.1", 3000, "dist"⟩
    ⟨fun _ => false, fun _ => false, false⟩
  have h2 := c6_exit_codes ["app"] ⟨"127.0.0.1", 3000, "dist"⟩
    ⟨fun _ => true, fun _ => true, true⟩
  have he1 : (mainModel ["app"] ⟨"127.0.0.1", 3000, "dist"⟩
      ⟨fun _ => false, fun _ => false, false⟩).exitCode = 1 := h1.1.mpr (by simp)
  exact ⟨he1, (h1.2.1 he1).1, h2.2.2.1 ⟨rfl, rfl⟩⟩

/-- C7 counterexample: dispatch keys on `urlparse(...).path`, which also
strips the `;parameters` of the last segment, so the target
`/api/health;v=1` is served by the health handler even though the path with
only the query string stripped is equal to neither route literal — under
the claim it would have to be delegated to static serving. -/
theorem c7_counterexample :
    urlparse_path "/api/health;v=1" = "/api/health" ∧
    stripQueryOnly "/api/health;v=1" ≠ "/api/health" ∧
    stripQueryOnly "/api/health;v=1" ≠ "/api/sample-graph" ∧
    (do_GET ["app"] (fun _ => none) ["app", "dist"] "/api/health;v=1").1 =
      .response (send_json 200 healthJson) := by
  refine ⟨rfl, by decide, by decide, ?_⟩
  rw [do_GET_health ["app"] (fun _ => none) ["app", "dist"] "/api/health;v=1" rfl]
  rfl

/-- C7 amended: dispatch inspects exactly `urlparse(self.path).path` — the
request target with query string, fragment and trailing semicolon
parameters stripped — and realizes the ordered exact-match route table
`/api/health`, `/api/sample-graph`, wildcard-static: `do_GET` equals the
table dispatch on that path, and any path matching neither literal (for
example a trailing-slash variant) is delegated to static serving. -/
theorem c7_route_table_dispatch (rootDir : List String)
    (fs : List String → Option (List Char)) (cwd : List String) (req : String) :
    do_GET rootDir fs cwd req =
      runRoute rootDir fs cwd (urlparse_path req) (tableLookup routeTable (urlparse_path req)) ∧
    (tableLookup routeTable (urlparse_path req) = .staticServe →
      (do_GET rootDir fs cwd req).1 = .staticFile cwd (urlparse_path req)) := by
  by_cases h1 : urlparse_path req = "/api/health"
  · rw [do_GET_health rootDir fs cwd req h1]
    constructor
    · simp [tableLookup, routeTable, h1, runRoute]
    · intro hlook
      rw [h1] at hlook
      exact RouteTarget.noConfusion hlook
  by_cases h2 : urlparse_path req = "/api/sample-graph"
  · rw [do_GET_sample rootDir fs cwd req h2]
    constructor
    · simp [tableLookup, routeTable, h1, h2, runRoute]
    · intro hlook
      rw [h2] at hlook
      exact RouteTarget.noConfusion hlook
  · rw [do_GET_static rootDir fs cwd req h1 h2]
    constructor
    · simp [tableLookup, routeTable, h1, h2, runRoute]
    · intro _
      rfl

/-- C7 amended witness: the trailing-slash variant `/api/health/` falls
through the table to static serving. -/
theorem c7_route_table_dispatch_witness :
    tableLookup routeTable (urlparse_path "/api/health/") = .staticServe ∧
    (do_GET ["app"] (fun _ => none) ["app", "dist"] "/api/health/").1 =
      .staticFile ["app", "dist"] (urlparse_path "/api/health/") :=
  ⟨rfl, (c7_route_table_dispatch ["app"] (fun _ => none) ["app", "dist"] "/api/health/").2 rfl⟩

/-- C8: the sample-graph location is the fixed `ROOT_DIR/data/sample-graph.json`,
independent of the static root: a `/api/sample-graph` request behaves
identically under any two working directories (the only thing `--root`
changes for the handler), touches no path other than the fixed one, and no
request whatsoever performs a filesystem write. -/
theorem c8_sample_path_fixed (rootDir : List String)
    (fs : List String → Option (List Char)) (cwd1 cwd2 : List String) (req : String)
    (hreq : urlparse_path req = "/api/sample-graph") :
    SAMPLE_GRAPH_PATH rootDir = rootDir ++ ["data", "sample-graph.json"] ∧
    do_GET rootDir fs cwd1 req = do_GET rootDir fs cwd2 req ∧
    (∀ op ∈ (do_GET rootDir fs cwd1 req).2,
      op = .probe (SAMPLE_GRAPH_PATH rootDir) ∨ op = .read (SAMPLE_GRAPH_PATH rootDir)) ∧
    (∀ (cwd : List String) (req2 : String) (p : List String),
      FsOp.write p ∉ (do_GET rootDir fs cwd req2).2) := by
  refine ⟨rfl, ?_, ?_, ?_⟩
  · rw [do_GET_sample rootDir fs cwd1 req hreq, do_GET_sample rootDir fs cwd2 req hreq]
  · rw [do_GET_sample rootDir fs cwd1 req hreq]
    rcases hf : fs (SAMPLE_GRAPH_PATH rootDir) with _ | content
    · rw [sampleGraphBranch_missing rootDir fs hf]
      intro op hop
      simp only [List.mem_singleton] at hop
      exact Or.inl hop
    · rcases hl : json_loads content with _ | j
      · rw [sampleGraphBranch_invalid rootDir fs content hf hl]
        intro op hop
        simpa using hop
      · rw [sampleGraphBranch_ok rootDir fs content j hf hl]
        intro op hop
        simpa using hop
  · intro cwd req2 p
    by_cases h1 : urlparse_path req2 = "/api/health"
    · rw [do_GET_health rootDir fs cwd req2 h1]
      simp [healthBranch]
    by_cases h2 : urlparse_path req2 = "/api/sample-graph"
    · rw [do_GET_sample rootDir fs cwd req2 h2]
      rcases hf : fs (SAMPLE_GRAPH_PATH rootDir) with _ | content
      · rw [sampleGraphBranch_missing rootDir fs hf]
        simp
      · rcases hl : json_loads content with _ | j
        · rw [sampleGraphBranch_invalid rootDir fs content hf hl]
          simp
        · rw [sampleGraphBranch_ok rootDir fs content j hf hl]
          simp
    · rw [do_GET_static rootDir fs cwd req2 h1 h2]
      simp [staticBranch, staticOps]

/-- C8 witness: two different working directories, same response and
effects on the fixed path. -/
theorem c8_sample_path_fixed_witness :
    do_GET ["app"] (fun _ => none) ["app", "dist"] "/api/sample-graph" =
      do_GET ["app"] (fun _ => none) ["app", "public"] "/api/sample-graph" :=
  (c8_sample_path_fixed ["app"] (fun _ => none) ["app", "dist"] ["app", "public"]
    "/api/sample-graph" rfl).2.1

/-- C9: the `/api/sample-graph` response is a function of the current
on-disk content of the fixed path alone — two filesystems agreeing on that
one path yield identical outcomes and effects — and whenever the file
exists the handler re-reads it on the request (a fresh read effect), so an
edit is reflected on the next request without restarting. -/
theorem c9_response_function_of_content (rootDir cwd : List String)
    (fs1 fs2 : List String → Option (List Char)) (req : String)
    (hreq : urlparse_path req = "/api/sample-graph")
    (hsame : fs1 (SAMPLE_GRAPH_PATH rootDir) = fs2 (SAMPLE_GRAPH_PATH rootDir)) :
    do_GET rootDir fs1 cwd req = do_GET rootDir fs2 cwd req ∧
    ((fs1 (SAMPLE_GRAPH_PATH rootDir)).isSome = true →
      FsOp.read (SAMPLE_GRAPH_PATH rootDir) ∈ (do_GET rootDir fs1 cwd req).2) := by
  constructor
  · rw [do_GET_sample rootDir fs1 cwd req hreq, do_GET_sample rootDir fs2 cwd req hreq]
    rw [sampleGraphBranch, sampleGraphBranch, hsame]
  · intro hs
    rw [do_GET_sample rootDir fs1 cwd req hreq]
    rcases hf : fs1 (SAMPLE_GRAPH_PATH rootDir) with _ | content
    · rw [hf] at hs
      simp at hs
    · rcases hl : json_loads content with _ | j
      · rw [sampleGraphBranch_invalid rootDir fs1 content hf hl]
        simp
      · rw [sampleGraphBranch_ok rootDir fs1 content j hf hl]
        simp

/-- C9 witness: two filesystems that differ elsewhere but agree on the
sample-graph path get the same answer, and the read effect is present. -/
theorem c9_response_function_of_content_witness :
    do_GET ["app"]
        (fun p => if p = SAMPLE_GRAPH_PATH ["app"] then some ("7".data) else none)
        ["app", "dist"] "/api/sample-graph" =
      do_GET ["app"]
        (fun p => if p = SAMPLE_GRAPH_PATH ["app"] then some ("7".data)
          else some ("other".data))
        ["app", "dist"] "/api/sample-graph" ∧
    FsOp.read (SAMPLE_GRAPH_PATH ["app"]) ∈
      (do_GET ["app"]
        (fun p => if p = SAMPLE_GRAPH_PATH ["app"] then some ("7".data) else none)
        ["app", "dist"] "/api/sample-graph").2 := by
  have h := c9_response_function_of_content ["app"] ["app", "dist"]
    (fun p => if p = SAMPLE_GRAPH_PATH ["app"] then some ("7".data) else none)
    (fun p => if p = SAMPLE_GRAPH_PATH ["app"] then some ("7".data) else some ("other".data))
    "/api/sample-graph" rfl rfl
  exact ⟨h.1, h.2 rfl⟩

/-- C10: the `--port` default `int(os.environ.get('PORT', 3000))` is
evaluated eagerly while the argument parser is being built: any environment
with a non-integer `PORT` makes `parse_args` raise `ValueError` for every
command line (even one passing a valid `--port`), crashing startup before
the static-root check and its clean error message; with `PORT` unset the
default is 3000. -/
theorem c10_eager_port_default (env : String → Option String) (argv : List String) (s : String)
    (rootDir : List String) (w : World)
    (hport : env "PORT" = some s) (hbad : pyInt s = none) :
    parse_args env argv = .error .valueError ∧
    mainFull rootDir env argv w = .crashed .valueError ∧
    (∀ env2 : String → Option String, env2 "PORT" = none →
      ∃ a, parse_args env2 [] = .ok a ∧ a.port = 3000) := by
  have hpa : parse_args env argv = .error .valueError := by
    rw [parse_args]
    simp only [hport, hbad]
  refine ⟨hpa, by rw [mainFull, hpa], ?_⟩
  intro env2 h2
  refine ⟨{ host := "127.0.0.1", port := 3000, root := (env2 "BACKEND_ROOT").getD "dist" },
    ?_, rfl⟩
  rw [parse_args]
  simp only [h2]
  rfl

/-- C10 witness: `PORT=x7` crashes `parse_args` even though a valid
`--port 8080` is supplied, and an unset `PORT` defaults to 3000. -/
theorem c10_eager_port_default_witness :
    pyInt "x7" = none ∧
    parse_args (fun k => if k = "PORT" then some "x7" else none) ["--port", "8080"] =
      .error .valueError ∧
    (∃ a, parse_args (fun _ => none) [] = .ok a ∧ a.port = 3000) := by
  have h := c10_eager_port_default (fun k => if k = "PORT" then some "x7" else none)
    ["--port", "8080"] "x7" ["app"] ⟨fun _ => true, fun _ => true, false⟩ rfl rfl
  exact ⟨rfl, h.1, h.2.2 (fun _ => none) rfl⟩
